import Mathlib

/-!
# z5 dataset engine: chunk-grid geometry, chunk reads and writes

A shallow embedding of `include/z5/dataset.hxx` (class `DatasetTyped<T>`) and of
`include/z5/compression/raw_compressor.hxx`.

Machine integers. `types::ShapeType` is `std::vector<size_t>`; a `size_t` is a
natural number below `2^64` and every `size_t` operation is taken modulo `2^64`.
`int` is a 32-bit two's complement integer: converting a `size_t` to `int` keeps
the low 32 bits, converting an `int` to `size_t` is reduction modulo `2^64`.

Vectors are lists; `v[d]` is `v.getD d 0` (the loops of the source only index
below the vector's size for the inputs the theorems quantify over).

Chunk data. An element of type `T` is the list of its bytes, a buffer is a list of
elements, and a call that writes through a pointer returns the buffer after the
call. The file system below the dataset path is explicit state with a log of the
accesses; the functions that touch it return the new state.
-/

namespace Z5

/-! ## Machine arithmetic -/

/-- Number of values of a `size_t` (64-bit). -/
def SIZE_MOD : Nat := 18446744073709551616

/-- Number of values of an `int` (32-bit). -/
def INT_MOD : Nat := 4294967296

/-- Smallest value that is not an `int`: `INT_MAX + 1`. -/
def INT_HALF : Nat := 2147483648

/-- A natural number is a `size_t` value. -/
def IsSizeT (n : Nat) : Prop := n < SIZE_MOD

instance (n : Nat) : Decidable (IsSizeT n) := inferInstanceAs (Decidable (n < SIZE_MOD))

/-- Every entry of a shape vector is a `size_t` value. -/
def SizeVec (v : List Nat) : Prop := ∀ x ∈ v, IsSizeT x

instance (v : List Nat) : Decidable (SizeVec v) :=
  inferInstanceAs (Decidable (∀ x ∈ v, IsSizeT x))

/-- Addition of two `size_t`: `a + b`. -/
def szAdd (a b : Nat) : Nat := (a + b) % SIZE_MOD

/-- Subtraction of two `size_t`: `a - b`, wrapping below zero. -/
def szSub (a b : Nat) : Nat := (a + (SIZE_MOD - b % SIZE_MOD)) % SIZE_MOD

/-- Multiplication of two `size_t`: `a * b`. -/
def szMul (a b : Nat) : Nat := (a * b) % SIZE_MOD

/-- Conversion `size_t -> int`: the low 32 bits, read as two's complement. -/
def toInt (a : Nat) : Int :=
  if a % INT_MOD < INT_HALF then ((a % INT_MOD : Nat) : Int)
  else ((a % INT_MOD : Nat) : Int) - (INT_MOD : Int)

/-- Conversion `int -> size_t`: reduction modulo `2^64`. -/
def toSize (i : Int) : Nat := (i % (SIZE_MOD : Int)).toNat

/-- Unary minus on `int` (`-x`), wrapping at `INT_MIN`. -/
def intNeg (i : Int) : Int := toInt (toSize (-i))

/-- The call `std::accumulate(v.begin(), v.end(), 1, std::multiplies<size_t>())`:
the initial value `1` is an `int`, so the accumulator is an `int`; each step
converts it to `size_t`, multiplies, and converts the product back to `int`. -/
def accumulate (v : List Nat) : Int :=
  v.foldl (fun acc x => toInt (szMul (toSize acc) x)) 1

/-! ## Data model -/

/-- The fields of `DatasetMetadata` that `init` reads for the geometry. -/
structure DatasetMetadata where
  isZarr : Bool
  shape : List Nat
  chunkShape : List Nat
deriving DecidableEq, Repr

/-- The geometry members of `DatasetTyped<T>`. -/
structure DatasetTyped where
  isZarr_ : Bool
  shape_ : List Nat
  chunkShape_ : List Nat
  chunkSize_ : Nat
  numberOfChunks_ : Nat
  chunksPerDimension_ : List Nat
deriving DecidableEq, Repr

/-- The loop of `init` that fills `chunksPerDimension_`. -/
def chunksPerDimensionOf (shape chunkShape : List Nat) : List Nat :=
  (List.range shape.length).map fun d =>
    szAdd (shape.getD d 0 / chunkShape.getD d 0)
      (if shape.getD d 0 % chunkShape.getD d 0 = 0 then 0 else 1)

/-- `DatasetTyped::init`. -/
def init (metadata : DatasetMetadata) : DatasetTyped :=
  { isZarr_ := metadata.isZarr
    shape_ := metadata.shape
    chunkShape_ := metadata.chunkShape
    chunkSize_ := toSize (accumulate metadata.chunkShape)
    chunksPerDimension_ := chunksPerDimensionOf metadata.shape metadata.chunkShape
    numberOfChunks_ :=
      toSize (accumulate (chunksPerDimensionOf metadata.shape metadata.chunkShape)) }

namespace DatasetTyped

/-- `DatasetTyped::dimension`. -/
def dimension (ds : DatasetTyped) : Nat := ds.shape_.length

/-- `DatasetTyped::shape`. -/
def shape (ds : DatasetTyped) : List Nat := ds.shape_

/-- `DatasetTyped::maxChunkShape`. -/
def maxChunkShape (ds : DatasetTyped) : List Nat := ds.chunkShape_

/-- `DatasetTyped::numberOfChunks`. -/
def numberOfChunks (ds : DatasetTyped) : Nat := ds.numberOfChunks_

/-- `DatasetTyped::chunksPerDimension`. -/
def chunksPerDimension (ds : DatasetTyped) : List Nat := ds.chunksPerDimension_

/-- `DatasetTyped::chunksPerDimension(d)`. -/
def chunksPerDimensionAt (ds : DatasetTyped) (d : Nat) : Nat := ds.chunksPerDimension_.getD d 0

/-- `DatasetTyped::shape(d)`. -/
def shapeAt (ds : DatasetTyped) (d : Nat) : Nat := ds.shape_.getD d 0

/-- `DatasetTyped::maxChunkShape(d)`. -/
def maxChunkShapeAt (ds : DatasetTyped) (d : Nat) : Nat := ds.chunkShape_.getD d 0

/-- `DatasetTyped::maxChunkSize`. -/
def maxChunkSize (ds : DatasetTyped) : Nat := ds.chunkSize_

/-- `DatasetTyped::size`. -/
def size (ds : DatasetTyped) : Nat := toSize (accumulate ds.shape_)

/-- The loop of `checkRequestShape`, run over the listed dimensions. -/
def checkRequestLoop (shape_ offset shape : List Nat) : List Nat → Except String Unit
  | [] => Except.ok ()
  | d :: rest =>
    if szAdd (offset.getD d 0) (shape.getD d 0) > shape_.getD d 0 then
      Except.error "Request is out of range"
    else if shape.getD d 0 = 0 then
      Except.error "Request shape has a zero entry"
    else checkRequestLoop shape_ offset shape rest

/-- `DatasetTyped::checkRequestShape`; a thrown `std::runtime_error` is `Except.error`. -/
def checkRequestShape (ds : DatasetTyped) (offset shape : List Nat) : Except String Unit :=
  if offset.length ≠ ds.shape_.length ∨ shape.length ≠ ds.shape_.length then
    Except.error "Request has wrong dimension"
  else checkRequestLoop ds.shape_ offset shape (List.range ds.shape_.length)

end DatasetTyped

/-- Modelled from the spec: `util::makeRegularGrid` (header `z5/util/util.hxx`, not
among the sources). The inclusive range `[lo, hi]` of one dimension, ascending;
empty when `hi < lo`. -/
def gridRange (lo hi : Nat) : List Nat := (List.range (hi + 1 - lo)).map fun i => lo + i

/-- Modelled from the spec: `util::makeRegularGrid` (header `z5/util/util.hxx`, not
among the sources): "the Cartesian product of ranges `[minId[d], maxId[d]]`,
enumerated in row-major order over `d = 0 … D−1` (outer loop on dimension 0)". -/
def makeRegularGrid : List Nat → List Nat → List (List Nat)
  | lo :: minCoords, hi :: maxCoords =>
    (gridRange lo hi).flatMap fun i => (makeRegularGrid minCoords maxCoords).map fun c => i :: c
  | _, _ => [[]]

/-- Modelled from the spec: `io::ChunkIoN5::getChunkShape` (header `z5/io/io_n5.hxx`,
not among the sources): "`actualChunkShape(c)[d] = min(chunkShape[d],
globalShape[d] − c[d]·chunkShape[d])`". -/
def ioN5GetChunkShape (shape_ chunkShape_ chunkId : List Nat) : List Nat :=
  (List.range shape_.length).map fun d =>
    min (chunkShape_.getD d 0) (shape_.getD d 0 - chunkId.getD d 0 * chunkShape_.getD d 0)

namespace DatasetTyped

/-- The loop body of `getChunkRequests` for `minChunkIds[d]`. -/
def minChunkId (ds : DatasetTyped) (offset : List Nat) (d : Nat) : Nat :=
  offset.getD d 0 / ds.chunkShape_.getD d 0

/-- The loop body of `getChunkRequests` for `maxChunkIds[d]`. -/
def maxChunkId (ds : DatasetTyped) (offset shape : List Nat) (d : Nat) : Nat :=
  let endCoordinate := szAdd (offset.getD d 0) (shape.getD d 0)
  let endId := endCoordinate / ds.chunkShape_.getD d 0
  if endCoordinate % ds.chunkShape_.getD d 0 = 0 then szSub endId 1 else endId

/-- `DatasetTyped::getChunkRequests`; the result is the content appended to the
output vector `chunkRequests`. -/
def getChunkRequests (ds : DatasetTyped) (offset shape : List Nat) : List (List Nat) :=
  let nDim := offset.length
  let minChunkIds := (List.range nDim).map fun d => ds.minChunkId offset d
  let maxChunkIds := (List.range nDim).map fun d => ds.maxChunkId offset shape d
  makeRegularGrid minChunkIds maxChunkIds

/-- `DatasetTyped::getChunkShape(chunkId, chunkShape)`: the vector written to the
output `chunkShape`. Layout A (zarr) copies `chunkShape_`, layout B (N5) asks the
chunk io. -/
def getChunkShape (ds : DatasetTyped) (chunkId : List Nat) : List Nat :=
  if ds.isZarr_ then (List.range ds.shape_.length).map fun d => ds.chunkShape_.getD d 0
  else ioN5GetChunkShape ds.shape_ ds.chunkShape_ chunkId

/-- `DatasetTyped::getChunkShape(chunkId, dim)`. -/
def getChunkShapeDim (ds : DatasetTyped) (chunkId : List Nat) (dim : Nat) : Nat :=
  if ds.isZarr_ then ds.chunkShape_.getD dim 0 else (ds.getChunkShape chunkId).getD dim 0

/-- `DatasetTyped::getChunkSize(chunkId)`. -/
def getChunkSize (ds : DatasetTyped) (chunkId : List Nat) : Nat :=
  if ds.isZarr_ then ds.maxChunkSize else toSize (accumulate (ds.getChunkShape chunkId))

/-- What one iteration of the loop of `getCoordinatesInRequest` writes. -/
structure DimCoordinates where
  localOffset : Nat
  localShape : Nat
  inChunkOffset : Nat
  complete : Bool
deriving DecidableEq, Repr

/-- One iteration (dimension `d`) of the loop of `getCoordinatesInRequest`;
`complete = false` records the assignment `completeOvlp = false`. -/
def coordinatesInDim (ds : DatasetTyped) (chunkId offset shape chunkShape : List Nat)
    (d : Nat) : DimCoordinates :=
  let chunkBegin := szMul (chunkId.getD d 0) (ds.chunkShape_.getD d 0)
  let chunkEnd := szAdd chunkBegin (chunkShape.getD d 0)
  let requestEnd := szAdd (offset.getD d 0) (shape.getD d 0)
  let offDiff : Int := toInt (szSub chunkBegin (offset.getD d 0))
  let endDiff : Int := toInt (szSub requestEnd chunkEnd)
  if offDiff < 0 then
    { localOffset := 0
      inChunkOffset := toSize (intNeg offDiff)
      complete := false
      localShape :=
        if chunkEnd ≤ requestEnd then szSub chunkEnd (offset.getD d 0)
        else szSub requestEnd (offset.getD d 0) }
  else if endDiff < 0 then
    { localOffset := szSub chunkBegin (offset.getD d 0)
      inChunkOffset := 0
      complete := false
      localShape := szSub requestEnd chunkBegin }
  else
    { localOffset := szSub chunkBegin (offset.getD d 0)
      inChunkOffset := 0
      complete := true
      localShape := chunkShape.getD d 0 }

/-- The outputs of `getCoordinatesInRequest`. -/
structure RequestCoordinates where
  localOffset : List Nat
  localShape : List Nat
  inChunkOffset : List Nat
  completeOvlp : Bool
deriving DecidableEq, Repr

/-- `DatasetTyped::getCoordinatesInRequest`: the three output vectors and the
returned flag. -/
def getCoordinatesInRequest (ds : DatasetTyped) (chunkId offset shape : List Nat) :
    RequestCoordinates :=
  let chunkShape := ds.getChunkShape chunkId
  let dims := (List.range offset.length).map fun d =>
    ds.coordinatesInDim chunkId offset shape chunkShape d
  { localOffset := dims.map fun r => r.localOffset
    localShape := dims.map fun r => r.localShape
    inChunkOffset := dims.map fun r => r.inChunkOffset
    completeOvlp := dims.all fun r => r.complete }

/-- The loop of `checkChunk` over the dimensions. -/
def checkChunkLoop (chunksPerDimension_ chunkIndices : List Nat) : List Nat → Except String Unit
  | [] => Except.ok ()
  | d :: rest =>
    if chunkIndices.getD d 0 ≥ chunksPerDimension_.getD d 0 then
      Except.error "Invalid chunk index"
    else checkChunkLoop chunksPerDimension_ chunkIndices rest

/-- `DatasetTyped::checkChunk`. -/
def checkChunk (ds : DatasetTyped) (chunkIndices : List Nat) : Except String Unit :=
  if chunkIndices.length ≠ ds.shape_.length then Except.error "Invalid chunk dimension"
  else checkChunkLoop ds.chunksPerDimension_ chunkIndices (List.range ds.shape_.length)

end DatasetTyped

/-! ## Chunk data, codec, chunk io and file system -/

/-- An element of type `T`: its `sizeof(T)` bytes in memory order. -/
abbrev Element := List Nat

/-- Modelled from the spec: `util::reverseEndiannessInplace` (header
`z5/util/util.hxx`, not among the sources): "reverses byte order of each element in
place", for the elements of the range it is given. -/
def reverseEndiannessInplace (data : List Element) : List Element :=
  data.map List.reverse

/-- The buffer `dst` after `std::copy(src.begin(), src.end(), dst)`: the elements of
`src` replace the first `src.size()` elements. (Writing past the end of the buffer
is undefined in the source; the list then grows.) -/
def copyInto (src dst : List Element) : List Element :=
  src ++ dst.drop src.length

/-- The buffer `dst` after `std::fill(dst, dst + n, v)`. -/
def fillInto (n : Nat) (v : Element) (dst : List Element) : List Element :=
  List.replicate n v ++ dst.drop n

/-- The buffer `dst` after `util::reverseEndiannessInplace<T>(dst, dst + n)`. -/
def reverseFirst (n : Nat) (dst : List Element) : List Element :=
  reverseEndiannessInplace (dst.take n) ++ dst.drop n

/-- The interface `compression::CompressorBase<T>` as `DatasetTyped` calls it.
`compress dataIn dataOut sizeIn` is the vector `dataOut` after the call, where
`dataIn` is the memory behind the pointer; `decompress dataIn dataOut size` is the
memory behind the pointer `dataOut` after the call. A thrown exception is
`Except.error`. -/
structure CompressorBase where
  compress : List Element → List Element → Nat → Except String (List Element)
  decompress : List Element → List Element → Nat → Except String (List Element)

namespace RawCompressor

/-- `RawCompressor::compress`: `dataOut.assign(dataIn, dataIn + sizeIn)`. -/
def compress (dataIn _dataOut : List Element) (sizeIn : Nat) : Except String (List Element) :=
  Except.ok (dataIn.take sizeIn)

/-- `RawCompressor::decompress`: `std::copy(dataIn.begin(), dataIn.end(), dataOut)`;
the third parameter is unnamed and unused. -/
def decompress (dataIn dataOut : List Element) (_size : Nat) : Except String (List Element) :=
  Except.ok (copyInto dataIn dataOut)

end RawCompressor

/-- The codec object `compression::RawCompressor<T>`. -/
def rawCompressor : CompressorBase :=
  { compress := RawCompressor.compress, decompress := RawCompressor.decompress }

/-- A chunk file: the header of layout B (the per-dimension sizes of the chunk;
layout A has none) and the codec payload. -/
structure ChunkFile where
  header : Option (List Nat)
  payload : List Element
deriving DecidableEq, Repr

/-- An access to the file system. -/
inductive FsOp where
  | createDir
  | writeMetadata
  | readMetadata
  | readChunk (chunkIndices : List Nat)
  | writeChunk (chunkIndices : List Nat)
deriving DecidableEq, Repr

/-- The part of the file system below one dataset path: whether the path exists
(`handle.exists()`), the metadata document, the chunk files by chunk identifier, and
the accesses made so far, oldest first. -/
structure FileSystem where
  datasetExists : Bool
  metadata : Option DatasetMetadata
  chunks : List (List Nat × ChunkFile)
  log : List FsOp
deriving DecidableEq, Repr

/-- Which of the file system operations of construction fail with an `IoError` (spec,
error kinds: "filesystem operation failed"); the code that performs them is not
among the sources, so whether they fail is a parameter. -/
structure IoFaults where
  createDir : Bool
  writeMetadata : Bool
deriving DecidableEq, Repr

namespace FileSystem

/-- The chunk file of a chunk identifier, if there is one. -/
def chunkFile (fs : FileSystem) (chunkIndices : List Nat) : Option ChunkFile :=
  fs.chunks.lookup chunkIndices

/-- Modelled from the spec: `handle::Dataset::createDir` (header
`z5/handle/handle.hxx`, not among the sources): create mode "materializes the
directory"; a file system operation that fails is an `IoError`, and then no
directory is there. The call is logged either way. -/
def createDir (faults : IoFaults) (fs : FileSystem) : Except String Unit × FileSystem :=
  if faults.createDir then
    (Except.error "IoError", { fs with log := fs.log ++ [FsOp.createDir] })
  else
    (Except.ok (), { fs with datasetExists := true, log := fs.log ++ [FsOp.createDir] })

/-- Modelled from the spec: `writeMetadata` (header `z5/metadata.hxx`, not among the
sources): create mode "persists metadata"; a file system operation that fails is an
`IoError`, and then no metadata document is written. The call is logged either
way. -/
def writeMetadata (faults : IoFaults) (fs : FileSystem) (metadata : DatasetMetadata) :
    Except String Unit × FileSystem :=
  if faults.writeMetadata then
    (Except.error "IoError", { fs with log := fs.log ++ [FsOp.writeMetadata] })
  else
    (Except.ok (), { fs with metadata := some metadata, log := fs.log ++ [FsOp.writeMetadata] })

/-- Modelled from the spec: `readMetadata` (header `z5/metadata.hxx`, not among the
sources): open mode "loads metadata"; a missing or malformed document is a
`MetadataError`. -/
def readMetadata (fs : FileSystem) : Except String DatasetMetadata × FileSystem :=
  (match fs.metadata with
    | some metadata => Except.ok metadata
    | none => Except.error "MetadataError",
   { fs with log := fs.log ++ [FsOp.readMetadata] })

end FileSystem

/-- Modelled from the spec: `io::ChunkIoN5::getChunkSize` (header `z5/io/io_n5.hxx`,
not among the sources): the chunk's actual element count, the product of its actual
shape. -/
def ioN5GetChunkSize (shape_ chunkShape_ chunkId : List Nat) : Nat :=
  (ioN5GetChunkShape shape_ chunkShape_ chunkId).prod

/-- Modelled from the spec: `io::ChunkIoZarr::write` and `io::ChunkIoN5::write`
(headers `z5/io/io_zarr.hxx`, `z5/io/io_n5.hxx`, not among the sources): the chunk
file becomes the codec payload, under layout B preceded by the header with the
chunk's actual per-dimension sizes. -/
def ioWrite (isZarr : Bool) (shape_ chunkShape_ chunkId : List Nat) (data : List Element)
    (fs : FileSystem) : FileSystem :=
  { fs with
    chunks :=
      (chunkId,
        { header := if isZarr then none else some (ioN5GetChunkShape shape_ chunkShape_ chunkId)
          payload := data }) ::
        fs.chunks.filter fun entry => entry.1 ≠ chunkId
    log := fs.log ++ [FsOp.writeChunk chunkId] }

/-- Modelled from the spec: `io::ChunkIoZarr::read` and `io::ChunkIoN5::read` (same
headers): the payload of the chunk file, or the "not present" signal `none` when the
file is absent. -/
def ioRead (chunkId : List Nat) (fs : FileSystem) : Option (List Element) × FileSystem :=
  ((fs.chunkFile chunkId).map fun file => file.payload,
   { fs with log := fs.log ++ [FsOp.readChunk chunkId] })

/-- The members of `DatasetTyped<T>` that chunk reads and writes use: the geometry,
`sizeof(T)`, the fill value and the codec. -/
structure DatasetEngine where
  geometry : DatasetTyped
  sizeofT : Nat
  fillValue_ : Element
  compressor_ : CompressorBase

/-- What a call of `writeChunk` leaves: whether it threw, the file system, the
caller's buffer `dataIn`, and the arguments `(data, sizeIn)` of the calls of
`compress`, where `data` is the memory behind the pointer passed. -/
structure WriteOutcome where
  result : Except String Unit
  fs : FileSystem
  dataIn : List Element
  compressCalls : List (List Element × Nat)

/-- What a call of `readChunk` leaves: whether it threw, the file system and the
caller's buffer `dataOut`. -/
structure ReadOutcome where
  result : Except String Unit
  fs : FileSystem
  dataOut : List Element

namespace DatasetEngine

/-- The local `chunkSize` of `writeChunk` and `readChunk`:
`isZarr_ ? chunkSize_ : io_->getChunkSize(chunk)`. -/
def chunkSize (eng : DatasetEngine) (chunkIndices : List Nat) : Nat :=
  if eng.geometry.isZarr_ then eng.geometry.chunkSize_
  else ioN5GetChunkSize eng.geometry.shape_ eng.geometry.chunkShape_ chunkIndices

/-- The condition `sizeof(T) > 1 && !isZarr_`. -/
def reversesEndianness (eng : DatasetEngine) : Bool :=
  decide (eng.sizeofT > 1) && !eng.geometry.isZarr_

/-- The memory behind the pointer that `writeChunk` passes to `compress`: the
reversed copy `dataTmp` of the first `chunkSize` elements, or the caller's buffer. -/
def compressInput (eng : DatasetEngine) (chunkIndices : List Nat) (dataIn : List Element) :
    List Element :=
  if eng.reversesEndianness then
    reverseEndiannessInplace (dataIn.take (eng.chunkSize chunkIndices))
  else dataIn

/-- `DatasetTyped::writeChunk(chunkIndices, dataIn)`. -/
def writeChunk (eng : DatasetEngine) (chunkIndices : List Nat) (dataIn : List Element)
    (fs : FileSystem) : WriteOutcome :=
  match eng.geometry.checkChunk chunkIndices with
  | Except.error e => { result := Except.error e, fs := fs, dataIn := dataIn, compressCalls := [] }
  | Except.ok _ =>
    let chunkSize := eng.chunkSize chunkIndices
    let data := eng.compressInput chunkIndices dataIn
    match eng.compressor_.compress data [] chunkSize with
    | Except.error e =>
      { result := Except.error e, fs := fs, dataIn := dataIn,
        compressCalls := [(data, chunkSize)] }
    | Except.ok dataOut =>
      { result := Except.ok ()
        fs := ioWrite eng.geometry.isZarr_ eng.geometry.shape_ eng.geometry.chunkShape_
          chunkIndices dataOut fs
        dataIn := dataIn
        compressCalls := [(data, chunkSize)] }

/-- `DatasetTyped::readChunk(chunkIndices, dataOut)`. -/
def readChunk (eng : DatasetEngine) (chunkIndices : List Nat) (dataOut : List Element)
    (fs : FileSystem) : ReadOutcome :=
  match eng.geometry.checkChunk chunkIndices with
  | Except.error e => { result := Except.error e, fs := fs, dataOut := dataOut }
  | Except.ok _ =>
    match ioRead chunkIndices fs with
    | (some dataTmp, fs1) =>
      let chunkSize := eng.chunkSize chunkIndices
      match eng.compressor_.decompress dataTmp dataOut chunkSize with
      | Except.error e => { result := Except.error e, fs := fs1, dataOut := dataOut }
      | Except.ok decoded =>
        { result := Except.ok ()
          fs := fs1
          dataOut :=
            if eng.reversesEndianness then reverseFirst chunkSize decoded else decoded }
    | (none, fs1) =>
      let chunkSize := eng.chunkSize chunkIndices
      { result := Except.ok (), fs := fs1,
        dataOut := fillInto chunkSize eng.fillValue_ dataOut }

end DatasetEngine

/-- The constructor `DatasetTyped(handle, metadata)`, "create a new array with
metadata": the constructed geometry or the exception, and the file system. After
the test of `handle.exists()` it runs `init(metadata)`, `handle.createDir()` and
`writeMetadata(handle, metadata)` in this order; an exception of either call leaves
the constructor. -/
def createDataset (metadata : DatasetMetadata) (faults : IoFaults) (fs : FileSystem) :
    Except String DatasetTyped × FileSystem :=
  if fs.datasetExists then
    (Except.error "Creating a new Dataset failed because file already exists.", fs)
  else
    match fs.createDir faults with
    | (Except.error e, fs1) => (Except.error e, fs1)
    | (Except.ok _, fs1) =>
      match fs1.writeMetadata faults metadata with
      | (Except.error e, fs2) => (Except.error e, fs2)
      | (Except.ok _, fs2) => (Except.ok (init metadata), fs2)

/-- The constructor `DatasetTyped(handle)`, "open existing array". -/
def openDataset (fs : FileSystem) : Except String DatasetTyped × FileSystem :=
  if !fs.datasetExists then
    (Except.error "Opening an existing Dataset failed because file does not exists.", fs)
  else
    match fs.readMetadata with
    | (Except.ok metadata, fs1) => (Except.ok (init metadata), fs1)
    | (Except.error e, fs1) => (Except.error e, fs1)

/-! ## Predicates used by the statements -/

/-- Metadata with equal ranks whose shape and chunk shape entries are strictly
positive `size_t` values. -/
def ValidMetadata (md : DatasetMetadata) : Prop :=
  md.shape.length = md.chunkShape.length ∧
  (∀ x ∈ md.shape, 0 < x ∧ x < SIZE_MOD) ∧
  (∀ x ∈ md.chunkShape, 0 < x ∧ x < SIZE_MOD)

instance (md : DatasetMetadata) : Decidable (ValidMetadata md) :=
  inferInstanceAs (Decidable (_ ∧ _ ∧ _))

/-- The request `(offset, shape)` is accepted: `checkRequestShape` returns normally. -/
def Accepted (ds : DatasetTyped) (offset shape : List Nat) : Prop :=
  (ds.checkRequestShape offset shape).isOk = true

instance (ds : DatasetTyped) (offset shape : List Nat) : Decidable (Accepted ds offset shape) :=
  inferInstanceAs (Decidable (_ = true))

/-- The chunk identifier `c` is valid: `checkChunk` returns normally. -/
def ValidChunk (ds : DatasetTyped) (c : List Nat) : Prop :=
  (ds.checkChunk c).isOk = true

instance (ds : DatasetTyped) (c : List Nat) : Decidable (ValidChunk ds c) :=
  inferInstanceAs (Decidable (_ = true))

/-- The request lies inside the array, in exact (unbounded) arithmetic: both
vectors have the rank of the dataset, every extent is positive and
`offset[d] + shape[d] ≤ shape_[d]`. -/
def InBounds (ds : DatasetTyped) (offset shape : List Nat) : Prop :=
  offset.length = ds.shape_.length ∧ shape.length = ds.shape_.length ∧
  ∀ d, d < ds.shape_.length →
    0 < shape.getD d 0 ∧ offset.getD d 0 + shape.getD d 0 ≤ ds.shape_.getD d 0

instance (ds : DatasetTyped) (offset shape : List Nat) : Decidable (InBounds ds offset shape) :=
  inferInstanceAs (Decidable (_ ∧ _ ∧ _))

/-- The extent `[c[d]*chunkShape[d], (c[d]+1)*chunkShape[d])` of the chunk `c`
intersects the request `[offset[d], offset[d]+shape[d])` in every dimension `d`, in
exact (unbounded) arithmetic. -/
def Intersects (ds : DatasetTyped) (offset shape c : List Nat) : Prop :=
  c.length = offset.length ∧
  ∀ d, d < offset.length →
    c.getD d 0 * ds.chunkShape_.getD d 0 < offset.getD d 0 + shape.getD d 0 ∧
    offset.getD d 0 < (c.getD d 0 + 1) * ds.chunkShape_.getD d 0

instance (ds : DatasetTyped) (offset shape c : List Nat) :
    Decidable (Intersects ds offset shape c) :=
  inferInstanceAs (Decidable (_ ∧ _))

/-- Every entry of the shape and of the chunk shape is an `int` value (below
`2^31`). -/
def FitsInt (md : DatasetMetadata) : Prop :=
  (∀ x ∈ md.shape, x < INT_HALF) ∧ (∀ x ∈ md.chunkShape, x < INT_HALF)

instance (md : DatasetMetadata) : Decidable (FitsInt md) :=
  inferInstanceAs (Decidable (_ ∧ _))

/-- The number of elements the request-level collaborator copies for one request:
the sum, over the chunks returned by `getChunkRequests`, of the product of the
`localShape` that `getCoordinatesInRequest` computes for the chunk. -/
def coveredVolume (ds : DatasetTyped) (offset shape : List Nat) : Nat :=
  ((ds.getChunkRequests offset shape).map fun c =>
    (ds.getCoordinatesInRequest c offset shape).localShape.prod).sum

/-- The length, in exact arithmetic, of the intersection of the request with the
chunk of index `i` in dimension `d`: from `max(offset, chunkBegin)` to
`min(requestEnd, chunkEnd)`, with the layout's actual chunk extent. -/
def overlapLength (md : DatasetMetadata) (offset shape : List Nat) (d i : Nat) : Nat :=
  min (offset.getD d 0 + shape.getD d 0)
      (i * md.chunkShape.getD d 0 +
        (if md.isZarr = true then md.chunkShape.getD d 0
         else min (md.chunkShape.getD d 0) (md.shape.getD d 0 - i * md.chunkShape.getD d 0))) -
    max (offset.getD d 0) (i * md.chunkShape.getD d 0)

/-- The `size_t` subtractions `a - b` that one iteration (dimension `d`) of the loop
of `getCoordinatesInRequest` evaluates, as pairs `(a, b)` in the order of
evaluation: first the two differences that are stored in the `int`s `offDiff` and
`endDiff`, then the subtractions of the branch taken. -/
def DatasetTyped.subtractionsInDim (ds : DatasetTyped)
    (chunkId offset shape chunkShape : List Nat) (d : Nat) : List (Nat × Nat) :=
  let chunkBegin := szMul (chunkId.getD d 0) (ds.chunkShape_.getD d 0)
  let chunkEnd := szAdd chunkBegin (chunkShape.getD d 0)
  let requestEnd := szAdd (offset.getD d 0) (shape.getD d 0)
  let offDiff : Int := toInt (szSub chunkBegin (offset.getD d 0))
  let endDiff : Int := toInt (szSub requestEnd chunkEnd)
  [(chunkBegin, offset.getD d 0), (requestEnd, chunkEnd)] ++
    (if offDiff < 0 then
      [if chunkEnd ≤ requestEnd then (chunkEnd, offset.getD d 0)
       else (requestEnd, offset.getD d 0)]
    else if endDiff < 0 then [(chunkBegin, offset.getD d 0), (requestEnd, chunkBegin)]
    else [(chunkBegin, offset.getD d 0)])

/-- The local region that `getCoordinatesInRequest` computes for the chunk `c`
contains the coordinate `p`, taken relative to the request: in every dimension
`localOffset[d] ≤ p[d] - offset[d] < localOffset[d] + localShape[d]`. -/
def InLocalRegion (ds : DatasetTyped) (offset shape c p : List Nat) : Prop :=
  ∀ d, d < offset.length →
    (ds.getCoordinatesInRequest c offset shape).localOffset.getD d 0 ≤
        p.getD d 0 - offset.getD d 0 ∧
    p.getD d 0 - offset.getD d 0 <
      (ds.getCoordinatesInRequest c offset shape).localOffset.getD d 0 +
        (ds.getCoordinatesInRequest c offset shape).localShape.getD d 0

instance (ds : DatasetTyped) (offset shape c p : List Nat) :
    Decidable (InLocalRegion ds offset shape c p) :=
  inferInstanceAs (Decidable (∀ d, d < offset.length → _))

/-- The coordinate `p` lies in the request: `offset[d] ≤ p[d] < offset[d] + shape[d]`
in every dimension. -/
def InRequest (offset shape p : List Nat) : Prop :=
  p.length = offset.length ∧
  ∀ d, d < offset.length →
    offset.getD d 0 ≤ p.getD d 0 ∧ p.getD d 0 < offset.getD d 0 + shape.getD d 0

instance (offset shape p : List Nat) : Decidable (InRequest offset shape p) :=
  inferInstanceAs (Decidable (_ ∧ _))

/-! ## Theorems -/

/-! ### Machine arithmetic without overflow -/

theorem szAdd_of_lt {a b : Nat} (h : a + b < SIZE_MOD) : szAdd a b = a + b :=
  Nat.mod_eq_of_lt h

theorem szMul_of_lt {a b : Nat} (h : a * b < SIZE_MOD) : szMul a b = a * b :=
  Nat.mod_eq_of_lt h

theorem szSub_of_le {a b : Nat} (hba : b ≤ a) (ha : a < SIZE_MOD) : szSub a b = a - b := by
  unfold szSub
  have hb : b % SIZE_MOD = b := Nat.mod_eq_of_lt (lt_of_le_of_lt hba ha)
  rw [hb]
  have h1 : a + (SIZE_MOD - b) = (a - b) + SIZE_MOD := by omega
  rw [h1, Nat.add_mod_right]
  exact Nat.mod_eq_of_lt (by omega)

/-- Rounded-up quotient, as the loop of `init` computes it. -/
theorem ceil_div_eq (a b : Nat) (hb : 0 < b) :
    ⌈(a : ℚ) / (b : ℚ)⌉₊ = a / b + (if a % b = 0 then 0 else 1) := by
  have hbq : (0 : ℚ) < (b : ℚ) := by exact_mod_cast hb
  have hdm : b * (a / b) + a % b = a := Nat.div_add_mod a b
  by_cases h : a % b = 0
  · simp only [h, if_true, Nat.add_zero]
    have ha : (a : ℚ) = (b : ℚ) * ((a / b : ℕ) : ℚ) := by
      have : a = b * (a / b) := by omega
      exact_mod_cast this
    rw [ha, mul_div_cancel_left₀ _ (ne_of_gt hbq), Nat.ceil_natCast]
  · simp only [h, if_false]
    rw [Nat.ceil_eq_iff (n := a / b + 1) (Nat.succ_ne_zero _)]
    have hlt : a % b < b := Nat.mod_lt a hb
    constructor
    · rw [Nat.add_sub_cancel, lt_div_iff₀ hbq]
      have : a / b * b < a := by
        have := Nat.pos_of_ne_zero h
        nlinarith [hdm]
      exact_mod_cast this
    · rw [div_le_iff₀ hbq]
      have : a ≤ (a / b + 1) * b := by nlinarith [hdm]
      exact_mod_cast this

theorem getD_chunksPerDimensionOf (shape chunkShape : List Nat) (d : Nat)
    (hd : d < shape.length) :
    (chunksPerDimensionOf shape chunkShape).getD d 0 =
      szAdd (shape.getD d 0 / chunkShape.getD d 0)
        (if shape.getD d 0 % chunkShape.getD d 0 = 0 then 0 else 1) := by
  simp [chunksPerDimensionOf, List.getD_eq_getElem?_getD, hd]

theorem getD_pos_of_forall {v : List Nat} {d : Nat} (hd : d < v.length)
    (h : ∀ x ∈ v, 0 < x ∧ x < SIZE_MOD) : 0 < v.getD d 0 ∧ v.getD d 0 < SIZE_MOD := by
  have : v.getD d 0 = v[d] := by simp [List.getD_eq_getElem?_getD, hd]
  rw [this]
  exact h _ (List.getElem_mem hd)

/-- Without the `size_t` wrapper: entry `d` of `chunksPerDimension_` is the quotient
rounded up. -/
theorem chunksPerDimensionOf_spec (md : DatasetMetadata) (h : ValidMetadata md) (d : Nat)
    (hd : d < md.shape.length) :
    (chunksPerDimensionOf md.shape md.chunkShape).getD d 0 =
      md.shape.getD d 0 / md.chunkShape.getD d 0 +
        (if md.shape.getD d 0 % md.chunkShape.getD d 0 = 0 then 0 else 1) := by
  obtain ⟨hlen, hs, hc⟩ := h
  have hsd := getD_pos_of_forall hd hs
  have hcd := getD_pos_of_forall (hlen ▸ hd) hc
  rw [getD_chunksPerDimensionOf _ _ _ hd]
  apply szAdd_of_lt
  have h1 : md.shape.getD d 0 / md.chunkShape.getD d 0 ≤ md.shape.getD d 0 := Nat.div_le_self _ _
  by_cases h0 : md.shape.getD d 0 % md.chunkShape.getD d 0 = 0
  · simp only [h0, if_true]; omega
  · simp only [h0, if_false]
    have h2 : md.shape.getD d 0 / md.chunkShape.getD d 0 < md.shape.getD d 0 := by
      apply Nat.div_lt_self hsd.1
      by_contra hle
      have : md.chunkShape.getD d 0 = 1 := by omega
      rw [this, Nat.mod_one] at h0
      exact h0 rfl
    omega

/-- C7: for a dataset built by `init` from metadata with strictly positive shape
and chunk shape, `chunksPerDimension()` has length `D` and `chunksPerDimension(d)`
is `shape[d] / chunkShape[d]` rounded up, for every dimension `d`. -/
theorem chunksPerDimension_eq_ceil (md : DatasetMetadata) (h : ValidMetadata md) :
    (init md).chunksPerDimension.length = (init md).dimension ∧
    (init md).dimension = md.shape.length ∧
    ∀ d, d < md.shape.length →
      (init md).chunksPerDimensionAt d =
        ⌈(md.shape.getD d 0 : ℚ) / (md.chunkShape.getD d 0 : ℚ)⌉₊ ∧
      (init md).chunksPerDimension.getD d 0 = (init md).chunksPerDimensionAt d := by
  refine ⟨by simp [init, DatasetTyped.chunksPerDimension, DatasetTyped.dimension,
    chunksPerDimensionOf], rfl, ?_⟩
  intro d hd
  refine ⟨?_, rfl⟩
  have hcd := getD_pos_of_forall (h.1 ▸ hd) h.2.2
  rw [ceil_div_eq _ _ hcd.1]
  exact chunksPerDimensionOf_spec md h d hd

theorem chunksPerDimension_eq_ceil_witness :
    ValidMetadata ⟨false, [20, 20, 20], [13, 5, 9]⟩ ∧
    (init ⟨false, [20, 20, 20], [13, 5, 9]⟩).chunksPerDimension = [2, 4, 3] ∧
    (init ⟨false, [20, 20, 20], [13, 5, 9]⟩).chunksPerDimensionAt 0 =
      ⌈((20 : ℕ) : ℚ) / ((13 : ℕ) : ℚ)⌉₊ :=
  ⟨by decide, by decide,
    ((chunksPerDimension_eq_ceil ⟨false, [20, 20, 20], [13, 5, 9]⟩ (by decide)).2.2 0
      (by decide)).1⟩

/-! ### `checkRequestShape` -/

theorem checkRequestLoop_isOk (shape_ offset shape : List Nat) (dims : List Nat) :
    (DatasetTyped.checkRequestLoop shape_ offset shape dims).isOk = true ↔
      ∀ d ∈ dims, szAdd (offset.getD d 0) (shape.getD d 0) ≤ shape_.getD d 0 ∧
        shape.getD d 0 ≠ 0 := by
  induction dims with
  | nil => simp [DatasetTyped.checkRequestLoop, Except.isOk, Except.toBool]
  | cons d rest ih =>
    have hcons : ∀ P : Nat → Prop, (∀ x ∈ d :: rest, P x) ↔ (P d ∧ ∀ x ∈ rest, P x) := by
      intro P; simp
    rw [hcons]
    unfold DatasetTyped.checkRequestLoop
    by_cases h1 : szAdd (offset.getD d 0) (shape.getD d 0) > shape_.getD d 0
    · rw [if_pos h1]
      constructor
      · intro h; exact absurd h (by simp [Except.isOk, Except.toBool])
      · intro h; omega
    · rw [if_neg h1]
      by_cases h2 : shape.getD d 0 = 0
      · rw [if_pos h2]
        constructor
        · intro h; exact absurd h (by simp [Except.isOk, Except.toBool])
        · intro h; exact absurd h2 h.1.2
      · rw [if_neg h2, ih]
        constructor
        · intro h; exact ⟨⟨by omega, h2⟩, h⟩
        · intro h; exact h.2

/-- What `checkRequestShape` checks, in machine arithmetic: the request is accepted
exactly when both vectors have the rank of the dataset and, in every dimension,
the wrapped sum `offset[d] + shape[d]` is at most `shape_[d]` and `shape[d]` is
not zero. -/
theorem accepted_iff (ds : DatasetTyped) (offset shape : List Nat) :
    Accepted ds offset shape ↔
      offset.length = ds.shape_.length ∧ shape.length = ds.shape_.length ∧
      ∀ d, d < ds.shape_.length →
        szAdd (offset.getD d 0) (shape.getD d 0) ≤ ds.shape_.getD d 0 ∧
        shape.getD d 0 ≠ 0 := by
  unfold Accepted DatasetTyped.checkRequestShape
  by_cases hl : offset.length ≠ ds.shape_.length ∨ shape.length ≠ ds.shape_.length
  · simp only [hl, if_true]
    constructor
    · intro h; simp [Except.isOk, Except.toBool] at h
    · rintro ⟨h1, h2, -⟩
      rcases hl with hl | hl
      · exact absurd h1 hl
      · exact absurd h2 hl
  · simp only [hl, if_false, checkRequestLoop_isOk, List.mem_range]
    have hl2 : offset.length = ds.shape_.length ∧ shape.length = ds.shape_.length := by
      constructor <;> by_contra hc <;> exact hl (by tauto)
    constructor
    · intro h; exact ⟨hl2.1, hl2.2, h⟩
    · intro h; exact h.2.2

/-- For requests whose sums `offset[d] + shape[d]` do not wrap, `checkRequestShape`
accepts exactly the requests of the right rank with non-zero extents that lie
inside the global shape. -/
theorem accepted_iff_of_noWrap (ds : DatasetTyped) (offset shape : List Nat)
    (hnw : ∀ d, d < ds.shape_.length → offset.getD d 0 + shape.getD d 0 < SIZE_MOD) :
    Accepted ds offset shape ↔
      offset.length = ds.shape_.length ∧ shape.length = ds.shape_.length ∧
      ∀ d, d < ds.shape_.length →
        offset.getD d 0 + shape.getD d 0 ≤ ds.shape_.getD d 0 ∧ 0 < shape.getD d 0 := by
  rw [accepted_iff]
  constructor
  · rintro ⟨h1, h2, h3⟩
    refine ⟨h1, h2, fun d hd => ?_⟩
    have := h3 d hd
    rw [szAdd_of_lt (hnw d hd)] at this
    exact ⟨this.1, Nat.pos_of_ne_zero this.2⟩
  · rintro ⟨h1, h2, h3⟩
    refine ⟨h1, h2, fun d hd => ?_⟩
    have := h3 d hd
    rw [szAdd_of_lt (hnw d hd)]
    exact ⟨this.1, Nat.pos_iff_ne_zero.mp this.2⟩

/-- C5 (failing input): on the dataset with `shape = (10,)`, `chunkShape = (4,)` the
request `offset = (2^64 - 1,)`, `shape = (2,)` has `offset[0] + shape[0] = 2^64 + 1`,
far beyond `globalShape[0] = 10`, yet `checkRequestShape` returns normally: the
`size_t` sum wraps to `1`. The request `(5, 6)` of the spec's scenario is rejected. -/
theorem checkRequestShape_accepts_wrapped_request :
    IsSizeT 18446744073709551615 ∧ IsSizeT 2 ∧
    (init ⟨true, [10], [4]⟩).shape_ = [10] ∧
    18446744073709551615 + 2 > 10 ∧
    (init ⟨true, [10], [4]⟩).checkRequestShape [18446744073709551615] [2] = Except.ok () ∧
    (init ⟨true, [10], [4]⟩).checkRequestShape [5] [6] =
      Except.error "Request is out of range" :=
  ⟨by decide, by decide, rfl, by decide, rfl, rfl⟩

/-! ### `std::accumulate` with an `int` accumulator -/

theorem toInt_modEq (n : Nat) : toInt n ≡ (n : Int) [ZMOD (INT_MOD : Int)] := by
  unfold toInt
  have h1 : ((n % INT_MOD : Nat) : Int) ≡ (n : Int) [ZMOD (INT_MOD : Int)] := by
    show ((n % INT_MOD : Nat) : Int) % (INT_MOD : Int) = (n : Int) % (INT_MOD : Int)
    rw [Int.natCast_mod, Int.emod_emod_of_dvd _ (dvd_refl _)]
  split
  · exact h1
  · have h2 : ((n % INT_MOD : Nat) : Int) - (INT_MOD : Int) ≡ ((n % INT_MOD : Nat) : Int)
        [ZMOD (INT_MOD : Int)] := by
      show (((n % INT_MOD : Nat) : Int) - (INT_MOD : Int)) % (INT_MOD : Int) = _
      rw [Int.sub_emod, Int.emod_self, sub_zero, Int.emod_emod_of_dvd _ (dvd_refl _)]
    exact h2.trans h1

theorem toInt_range (n : Nat) : -(INT_HALF : Int) ≤ toInt n ∧ toInt n < (INT_HALF : Int) := by
  unfold toInt
  have hlt : n % INT_MOD < INT_MOD := Nat.mod_lt _ (by decide)
  have hM : INT_MOD = 2 * INT_HALF := by decide
  generalize n % INT_MOD = m at hlt ⊢
  split
  · rename_i hlo
    constructor <;> omega
  · rename_i hge
    constructor <;> omega

theorem toSize_modEq (i : Int) : ((toSize i : Nat) : Int) ≡ i [ZMOD (INT_MOD : Int)] := by
  unfold toSize
  have hpos : (0 : Int) ≤ i % (SIZE_MOD : Int) := Int.emod_nonneg _ (by decide)
  rw [Int.toNat_of_nonneg hpos]
  show i % (SIZE_MOD : Int) % (INT_MOD : Int) = i % (INT_MOD : Int)
  exact Int.emod_emod_of_dvd _ (by decide)

theorem toSize_of_nonneg {i : Int} (h0 : 0 ≤ i) (h1 : i < (SIZE_MOD : Int)) :
    ((toSize i : Nat) : Int) = i := by
  unfold toSize
  rw [Int.emod_eq_of_lt h0 h1, Int.toNat_of_nonneg h0]

theorem szMul_modEq (a b : Nat) :
    ((szMul a b : Nat) : Int) ≡ (a : Int) * (b : Int) [ZMOD (INT_MOD : Int)] := by
  unfold szMul
  show ((a * b % SIZE_MOD : Nat) : Int) % (INT_MOD : Int) = ((a : Int) * (b : Int)) % (INT_MOD : Int)
  rw [Int.natCast_mod, Int.emod_emod_of_dvd _ (by decide)]
  push_cast
  rfl

/-- One step of the accumulation is multiplication modulo `2^32`. -/
theorem accumulate_step_modEq (acc : Int) (x : Nat) :
    toInt (szMul (toSize acc) x) ≡ acc * (x : Int) [ZMOD (INT_MOD : Int)] :=
  ((toInt_modEq _).trans (szMul_modEq _ _)).trans ((toSize_modEq acc).mul_right _)

theorem foldl_accumulate_modEq (v : List Nat) (acc : Int) :
    v.foldl (fun acc x => toInt (szMul (toSize acc) x)) acc ≡ acc * (v.prod : Int)
      [ZMOD (INT_MOD : Int)] := by
  induction v generalizing acc with
  | nil => simp [Int.ModEq]
  | cons x xs ih =>
    rw [List.foldl_cons, List.prod_cons]
    refine (ih _).trans ?_
    have := (accumulate_step_modEq acc x).mul_right (xs.prod : Int)
    rw [Nat.cast_mul, ← mul_assoc]
    exact this

theorem foldl_accumulate_range (v : List Nat) (acc : Int)
    (h : -(INT_HALF : Int) ≤ acc ∧ acc < (INT_HALF : Int)) :
    -(INT_HALF : Int) ≤ v.foldl (fun acc x => toInt (szMul (toSize acc) x)) acc ∧
      v.foldl (fun acc x => toInt (szMul (toSize acc) x)) acc < (INT_HALF : Int) := by
  induction v generalizing acc with
  | nil => exact h
  | cons x xs ih => exact ih _ (toInt_range _)

/-- The accumulation returns the product whenever the product fits in an `int`. -/
theorem accumulate_eq_prod (v : List Nat) (h : v.prod < INT_HALF) :
    toSize (accumulate v) = v.prod := by
  have hmod := foldl_accumulate_modEq v 1
  have hrange := foldl_accumulate_range v 1 (by decide)
  rw [one_mul] at hmod
  have heq : accumulate v = (v.prod : Int) := by
    unfold accumulate
    have hp : ((v.prod : Nat) : Int) < (INT_HALF : Int) := by exact_mod_cast h
    have hp0 : (0 : Int) ≤ ((v.prod : Nat) : Int) := Int.natCast_nonneg _
    have hM : (INT_MOD : Int) = 2 * (INT_HALF : Int) := by decide
    have hd := (Int.modEq_iff_dvd.mp hmod)
    obtain ⟨k, hk⟩ := hd
    rw [hM] at hk
    have hH : (0 : Int) < (INT_HALF : Int) := by decide
    have hk0 : k = 0 := by
      by_contra hne
      rcases lt_or_gt_of_ne hne with hneg | hpos
      · have : k ≤ -1 := by omega
        nlinarith
      · have : 1 ≤ k := by omega
        nlinarith
    rw [hk0, mul_zero] at hk
    omega
  have h2 : ((toSize (accumulate v) : Nat) : Int) = ((v.prod : Nat) : Int) := by
    rw [heq]
    apply toSize_of_nonneg (Int.natCast_nonneg _)
    have : v.prod < SIZE_MOD := lt_trans h (by decide)
    exact_mod_cast this
  exact_mod_cast h2

/-- C8 (failing input): for `shape = (65536, 65536)` the product of the shape is
`2^32`, which fits in `size_t`, but `size()` returns `0`: the accumulator of
`std::accumulate` is the `int` literal `1`. For a product below `2^31`, here
`(100, 20)`, `size()` is the product. -/
theorem size_wraps_at_int_range :
    ValidMetadata ⟨true, [65536, 65536], [1024, 1024]⟩ ∧
    [65536, 65536].prod = 4294967296 ∧ IsSizeT 4294967296 ∧
    (init ⟨true, [65536, 65536], [1024, 1024]⟩).size = 0 ∧
    (init ⟨true, [100, 20], [10, 10]⟩).size = 2000 :=
  ⟨by decide, by decide, by decide, by decide, by decide⟩

/-- C9 (failing input): for `chunkShape = (65536, 65536)` the product of the chunk
shape is `2^32`, which fits in `size_t`, but `maxChunkSize()` returns `0`: the
accumulator of `std::accumulate` in `init` is the `int` literal `1`. -/
theorem maxChunkSize_wraps_at_int_range :
    ValidMetadata ⟨true, [1048576, 1048576], [65536, 65536]⟩ ∧
    [65536, 65536].prod = 4294967296 ∧ IsSizeT 4294967296 ∧
    (init ⟨true, [1048576, 1048576], [65536, 65536]⟩).maxChunkSize = 0 ∧
    (init ⟨false, [20, 20, 20], [13, 5, 9]⟩).maxChunkSize = 585 :=
  ⟨by decide, by decide, by decide, by decide, by decide⟩

/-- C6 (failing input): for `shape = (1048576, 1048576)` and `chunkShape = (16, 16)`
there are `65536` chunks per dimension and so `2^32` chunks, but `numberOfChunks()`
returns `0`: the accumulator of `std::accumulate` in `init` is the `int` literal
`1`. For the dataset of the N5 test, `numberOfChunks()` is `2 * 4 * 3 = 24`. -/
theorem numberOfChunks_wraps_at_int_range :
    ValidMetadata ⟨true, [1048576, 1048576], [16, 16]⟩ ∧
    (init ⟨true, [1048576, 1048576], [16, 16]⟩).chunksPerDimension = [65536, 65536] ∧
    ⌈((1048576 : ℕ) : ℚ) / ((16 : ℕ) : ℚ)⌉₊ * ⌈((1048576 : ℕ) : ℚ) / ((16 : ℕ) : ℚ)⌉₊
      = 4294967296 ∧
    (init ⟨true, [1048576, 1048576], [16, 16]⟩).numberOfChunks = 0 ∧
    (init ⟨false, [20, 20, 20], [13, 5, 9]⟩).numberOfChunks = 24 := by
  refine ⟨by decide, by decide, ?_, by decide, by decide⟩
  rw [ceil_div_eq _ _ (by decide)]
  decide

/-- Where the product of the shape fits in an `int`, `size()` is that product. -/
theorem size_eq_prod_of_lt (md : DatasetMetadata) (h : md.shape.prod < INT_HALF) :
    (init md).size = md.shape.prod :=
  accumulate_eq_prod _ h

/-- Where the product of the chunk shape fits in an `int`, `maxChunkSize()` is that
product. -/
theorem maxChunkSize_eq_prod_of_lt (md : DatasetMetadata) (h : md.chunkShape.prod < INT_HALF) :
    (init md).maxChunkSize = md.chunkShape.prod :=
  accumulate_eq_prod _ h

/-- Where the number of chunks fits in an `int`, `numberOfChunks()` is the product
of the rounded-up quotients. -/
theorem numberOfChunks_eq_prod_of_lt (md : DatasetMetadata) (hv : ValidMetadata md)
    (h : ((List.range md.shape.length).map fun d =>
      ⌈(md.shape.getD d 0 : ℚ) / (md.chunkShape.getD d 0 : ℚ)⌉₊).prod < INT_HALF) :
    (init md).numberOfChunks =
      ((List.range md.shape.length).map fun d =>
        ⌈(md.shape.getD d 0 : ℚ) / (md.chunkShape.getD d 0 : ℚ)⌉₊).prod := by
  have hlist : chunksPerDimensionOf md.shape md.chunkShape =
      (List.range md.shape.length).map fun d =>
        ⌈(md.shape.getD d 0 : ℚ) / (md.chunkShape.getD d 0 : ℚ)⌉₊ := by
    apply List.ext_getElem
    · simp [chunksPerDimensionOf]
    · intro d h1 h2
      have hd : d < md.shape.length := by simpa [chunksPerDimensionOf] using h1
      have hcd := getD_pos_of_forall (hv.1 ▸ hd) hv.2.2
      have := chunksPerDimensionOf_spec md hv d hd
      rw [List.getD_eq_getElem?_getD, List.getElem?_eq_getElem h1, Option.getD_some] at this
      rw [this, List.getElem_map, List.getElem_range, ceil_div_eq _ _ hcd.1]
  show toSize (accumulate (chunksPerDimensionOf md.shape md.chunkShape)) = _
  rw [hlist]
  exact accumulate_eq_prod _ h

/-! ### `checkChunk` and the actual chunk shape -/

theorem checkChunkLoop_isOk (cpd c : List Nat) (dims : List Nat) :
    (DatasetTyped.checkChunkLoop cpd c dims).isOk = true ↔
      ∀ d ∈ dims, c.getD d 0 < cpd.getD d 0 := by
  induction dims with
  | nil => simp [DatasetTyped.checkChunkLoop, Except.isOk, Except.toBool]
  | cons d rest ih =>
    have hcons : ∀ P : Nat → Prop, (∀ x ∈ d :: rest, P x) ↔ (P d ∧ ∀ x ∈ rest, P x) := by
      intro P; simp
    rw [hcons]
    unfold DatasetTyped.checkChunkLoop
    by_cases h1 : c.getD d 0 ≥ cpd.getD d 0
    · rw [if_pos h1]
      constructor
      · intro h; exact absurd h (by simp [Except.isOk, Except.toBool])
      · intro h; omega
    · rw [if_neg h1, ih]
      constructor
      · intro h; exact ⟨by omega, h⟩
      · intro h; exact h.2

/-- What `checkChunk` checks: the identifier has the rank of the dataset and every
index is below `chunksPerDimension_`. -/
theorem validChunk_iff (ds : DatasetTyped) (c : List Nat) :
    ValidChunk ds c ↔
      c.length = ds.shape_.length ∧
      ∀ d, d < ds.shape_.length → c.getD d 0 < ds.chunksPerDimension_.getD d 0 := by
  unfold ValidChunk DatasetTyped.checkChunk
  by_cases hl : c.length ≠ ds.shape_.length
  · rw [if_pos hl]
    constructor
    · intro h; exact absurd h (by simp [Except.isOk, Except.toBool])
    · intro h; exact absurd h.1 hl
  · rw [if_neg hl, checkChunkLoop_isOk]
    simp only [List.mem_range]
    constructor
    · intro h; exact ⟨by omega, h⟩
    · intro h; exact h.2

/-- A chunk index below the rounded-up quotient starts inside the array. -/
theorem mul_lt_of_lt_ceil {s cs c : Nat} (hcs : 0 < cs)
    (h : c < s / cs + (if s % cs = 0 then 0 else 1)) : c * cs < s := by
  have hdm : cs * (s / cs) + s % cs = s := Nat.div_add_mod s cs
  by_cases h0 : s % cs = 0
  · rw [if_pos h0] at h
    have : (c + 1) * cs ≤ s / cs * cs := Nat.mul_le_mul_right _ h
    nlinarith
  · rw [if_neg h0] at h
    have h1 : c * cs ≤ s / cs * cs := Nat.mul_le_mul_right _ (by omega)
    have := Nat.pos_of_ne_zero h0
    nlinarith

theorem getD_ioN5GetChunkShape (shape_ chunkShape_ chunkId : List Nat) (d : Nat)
    (hd : d < shape_.length) :
    (ioN5GetChunkShape shape_ chunkShape_ chunkId).getD d 0 =
      min (chunkShape_.getD d 0) (shape_.getD d 0 - chunkId.getD d 0 * chunkShape_.getD d 0) := by
  simp [ioN5GetChunkShape, List.getD_eq_getElem?_getD, hd]

/-- C10: under layout B (N5), for a dataset built by `init` from valid metadata,
every valid chunk identifier `c` and every dimension `d`, entry `d` of
`getChunkShape(c)` is `min(chunkShape[d], shape[d] - c[d]*chunkShape[d])`, where the
subtraction does not go below zero (the chunk begins inside the array), and the
per-dimension accessor agrees. For `shape = (20,20,20)`, `chunkShape = (13,5,9)`
the chunks `(0,0,0)`, `(1,0,0)`, `(1,0,1)`, `(1,0,2)` get `(13,5,9)`, `(7,5,9)`,
`(7,5,9)`, `(7,5,2)`, as the test `IrregularChunksN5` expects. -/
theorem getChunkShape_n5 (md : DatasetMetadata) (hv : ValidMetadata md)
    (hB : md.isZarr = false) (c : List Nat) (hc : ValidChunk (init md) c) :
    ((init md).getChunkShape c).length = md.shape.length ∧
    (∀ d, d < md.shape.length →
      ((init md).getChunkShape c).getD d 0 =
        min (md.chunkShape.getD d 0)
          (md.shape.getD d 0 - c.getD d 0 * md.chunkShape.getD d 0) ∧
      (init md).getChunkShapeDim c d = ((init md).getChunkShape c).getD d 0 ∧
      c.getD d 0 * md.chunkShape.getD d 0 < md.shape.getD d 0 ∧
      0 < ((init md).getChunkShape c).getD d 0) ∧
    (init ⟨false, [20, 20, 20], [13, 5, 9]⟩).getChunkShape [0, 0, 0] = [13, 5, 9] ∧
    (init ⟨false, [20, 20, 20], [13, 5, 9]⟩).getChunkShape [1, 0, 0] = [7, 5, 9] ∧
    (init ⟨false, [20, 20, 20], [13, 5, 9]⟩).getChunkShape [1, 0, 1] = [7, 5, 9] ∧
    (init ⟨false, [20, 20, 20], [13, 5, 9]⟩).getChunkShape [1, 0, 2] = [7, 5, 2] := by
  have hshape : (init md).getChunkShape c = ioN5GetChunkShape md.shape md.chunkShape c := by
    simp [DatasetTyped.getChunkShape, init, hB]
  refine ⟨?_, ?_, by decide, by decide, by decide, by decide⟩
  · rw [hshape]; simp [ioN5GetChunkShape]
  · intro d hd
    have hcd := getD_pos_of_forall (hv.1 ▸ hd) hv.2.2
    have hlt : c.getD d 0 * md.chunkShape.getD d 0 < md.shape.getD d 0 := by
      have h1 := ((validChunk_iff _ _).mp hc).2 d hd
      have h2 := chunksPerDimensionOf_spec md hv d hd
      have h3 : (init md).chunksPerDimension_.getD d 0 =
          (chunksPerDimensionOf md.shape md.chunkShape).getD d 0 := rfl
      rw [h3, h2] at h1
      exact mul_lt_of_lt_ceil hcd.1 h1
    have hval := getD_ioN5GetChunkShape md.shape md.chunkShape c d hd
    refine ⟨by rw [hshape, hval], ?_, hlt, ?_⟩
    · simp [DatasetTyped.getChunkShapeDim, init, hB]
    · rw [hshape, hval]
      exact lt_min hcd.1 (by omega)

theorem getChunkShape_n5_witness :
    ValidMetadata ⟨false, [10], [4]⟩ ∧ ValidChunk (init ⟨false, [10], [4]⟩) [2] ∧
    ((init ⟨false, [10], [4]⟩).getChunkShape [2]).getD 0 0 = min 4 (10 - 2 * 4) :=
  ⟨by decide, by decide,
    ((getChunkShape_n5 ⟨false, [10], [4]⟩ (by decide) rfl [2] (by decide)).2.1 0
      (by decide)).1⟩

/-! ### The regular grid -/

theorem mem_gridRange {lo hi i : Nat} : i ∈ gridRange lo hi ↔ lo ≤ i ∧ i ≤ hi := by
  unfold gridRange
  rw [List.mem_map]
  constructor
  · rintro ⟨a, ha, rfl⟩
    rw [List.mem_range] at ha
    omega
  · intro h
    exact ⟨i - lo, by rw [List.mem_range]; omega, by omega⟩

theorem nodup_gridRange (lo hi : Nat) : (gridRange lo hi).Nodup := by
  unfold gridRange
  apply (List.nodup_range _).map
  intro a b h
  simpa using h

theorem makeRegularGrid_cons (lo hi : Nat) (los his : List Nat) :
    makeRegularGrid (lo :: los) (hi :: his) =
      (gridRange lo hi).flatMap fun i => (makeRegularGrid los his).map fun c => i :: c := by
  rw [makeRegularGrid]

theorem makeRegularGrid_nil_left (his : List Nat) : makeRegularGrid [] his = [[]] := by
  rw [makeRegularGrid]
  intro lo los hi his h
  exact absurd h (by simp)

theorem makeRegularGrid_nil_right (los : List Nat) : makeRegularGrid los [] = [[]] := by
  rw [makeRegularGrid]
  intro lo los hi his _ h
  exact absurd h (by simp)

/-- Membership in the grid: the identifiers of the right rank whose every index lies
in the range of its dimension. -/
theorem mem_makeRegularGrid (los his : List Nat) (hlen : los.length = his.length)
    (c : List Nat) :
    c ∈ makeRegularGrid los his ↔
      c.length = los.length ∧
      ∀ d, d < los.length → los.getD d 0 ≤ c.getD d 0 ∧ c.getD d 0 ≤ his.getD d 0 := by
  induction los generalizing his c with
  | nil =>
    cases his with
    | nil =>
      rw [makeRegularGrid_nil_left]
      simp
    | cons h hs => simp at hlen
  | cons lo los ih =>
    cases his with
    | nil => simp at hlen
    | cons hi his =>
      have hlen2 : los.length = his.length := by simpa using hlen
      rw [makeRegularGrid_cons, List.mem_flatMap]
      constructor
      · rintro ⟨i, hi1, hi2⟩
        rw [List.mem_map] at hi2
        obtain ⟨c2, hc2, rfl⟩ := hi2
        have h2 := (ih his hlen2 c2).mp hc2
        refine ⟨by simp [h2.1], ?_⟩
        intro d hd
        cases d with
        | zero => simpa using mem_gridRange.mp hi1
        | succ d =>
          simp only [List.getD_cons_succ]
          exact h2.2 d (by simpa using hd)
      · rintro ⟨h1, h2⟩
        cases c with
        | nil => simp at h1
        | cons i c2 =>
          refine ⟨i, mem_gridRange.mpr (by simpa using h2 0 (by simp)), ?_⟩
          rw [List.mem_map]
          refine ⟨c2, (ih his hlen2 c2).mpr ⟨by simpa using h1, ?_⟩, rfl⟩
          intro d hd
          have := h2 (d + 1) (by simpa using hd)
          simpa only [List.getD_cons_succ] using this

/-- The grid lists no identifier twice. -/
theorem nodup_makeRegularGrid (los his : List Nat) : (makeRegularGrid los his).Nodup := by
  induction los generalizing his with
  | nil =>
    rw [makeRegularGrid_nil_left]; simp
  | cons lo los ih =>
    cases his with
    | nil => rw [makeRegularGrid_nil_right]; simp
    | cons hi his =>
      rw [makeRegularGrid_cons, List.nodup_flatMap]
      constructor
      · intro i _
        apply (ih his).map
        intro a b h
        simpa using h
      · apply (nodup_gridRange lo hi).pairwise_of_forall_ne
        intro a _ b _ hab
        show List.Disjoint _ _
        intro x hx1 hx2
        rw [List.mem_map] at hx1 hx2
        obtain ⟨c1, _, rfl⟩ := hx1
        obtain ⟨c2, _, h⟩ := hx2
        simp only [List.cons.injEq] at h
        exact hab h.1.symm

/-! ### `getChunkRequests` -/

/-- A request inside the array is accepted and none of its sums wraps. -/
theorem InBounds.accepted {md : DatasetMetadata} (hv : ValidMetadata md)
    {offset shape : List Nat} (h : InBounds (init md) offset shape) :
    Accepted (init md) offset shape ∧
      ∀ d, d < md.shape.length → offset.getD d 0 + shape.getD d 0 < SIZE_MOD := by
  have hnw : ∀ d, d < md.shape.length → offset.getD d 0 + shape.getD d 0 < SIZE_MOD := by
    intro d hd
    have h1 := (h.2.2 d hd).2
    have h2 := (getD_pos_of_forall hd hv.2.1).2
    exact lt_of_le_of_lt h1 h2
  refine ⟨(accepted_iff_of_noWrap _ _ _ hnw).mpr ⟨h.1, h.2.1, fun d hd => ?_⟩, hnw⟩
  exact ⟨(h.2.2 d hd).2, (h.2.2 d hd).1⟩

/-- An accepted request none of whose sums wraps lies inside the array. -/
theorem Accepted.inBounds {ds : DatasetTyped} {offset shape : List Nat}
    (h : Accepted ds offset shape)
    (hnw : ∀ d, d < ds.shape_.length → offset.getD d 0 + shape.getD d 0 < SIZE_MOD) :
    InBounds ds offset shape := by
  obtain ⟨h1, h2, h3⟩ := (accepted_iff_of_noWrap _ _ _ hnw).mp h
  exact ⟨h1, h2, fun d hd => ⟨(h3 d hd).2, (h3 d hd).1⟩⟩

/-- The quotient of the predecessor, as `getChunkRequests` computes it. -/
theorem pred_div_eq (e cs : Nat) (hcs : 0 < cs) (he : 0 < e) :
    (e - 1) / cs = if e % cs = 0 then e / cs - 1 else e / cs := by
  obtain ⟨e1, rfl⟩ : ∃ e1, e = e1 + 1 := ⟨e - 1, by omega⟩
  rw [Nat.add_sub_cancel]
  have hdm : cs * ((e1 + 1) / cs) + (e1 + 1) % cs = e1 + 1 := Nat.div_add_mod _ cs
  have hmlt : (e1 + 1) % cs < cs := Nat.mod_lt _ hcs
  generalize (e1 + 1) / cs = q at hdm ⊢
  generalize (e1 + 1) % cs = r at hdm hmlt ⊢
  by_cases h0 : r = 0
  · rw [if_pos h0]
    subst h0
    obtain ⟨k, rfl⟩ : ∃ k, q = k + 1 := by
      refine ⟨q - 1, ?_⟩
      have : q ≠ 0 := by
        rintro rfl
        simp at hdm
      omega
    rw [Nat.add_sub_cancel]
    apply Nat.div_eq_of_lt_le
    · nlinarith
    · nlinarith
  · rw [if_neg h0]
    have := Nat.pos_of_ne_zero h0
    apply Nat.div_eq_of_lt_le
    · nlinarith
    · nlinarith

/-- Without wrap-around `maxChunkIds[d]` is the index of the chunk holding the last
coordinate of the request. -/
theorem maxChunkId_eq (ds : DatasetTyped) (offset shape : List Nat) (d : Nat)
    (hcs : 0 < ds.chunkShape_.getD d 0) (hsh : 0 < shape.getD d 0)
    (hnw : offset.getD d 0 + shape.getD d 0 < SIZE_MOD) :
    ds.maxChunkId offset shape d =
      (offset.getD d 0 + shape.getD d 0 - 1) / ds.chunkShape_.getD d 0 := by
  unfold DatasetTyped.maxChunkId
  simp only [szAdd_of_lt hnw]
  have he : 0 < offset.getD d 0 + shape.getD d 0 := by omega
  rw [pred_div_eq _ _ hcs he]
  by_cases h0 : (offset.getD d 0 + shape.getD d 0) % ds.chunkShape_.getD d 0 = 0
  · rw [if_pos h0, if_pos h0]
    apply szSub_of_le _ (lt_of_le_of_lt (Nat.div_le_self _ _) hnw)
    rw [Nat.one_le_iff_ne_zero]
    intro hq
    have hdm := Nat.div_add_mod (offset.getD d 0 + shape.getD d 0) (ds.chunkShape_.getD d 0)
    rw [hq, h0] at hdm
    omega
  · rw [if_neg h0, if_neg h0]

/-- In one dimension, the chunks between `minChunkIds[d]` and `maxChunkIds[d]` are
exactly those whose extent intersects the request. -/
theorem chunkId_range_iff (ds : DatasetTyped) (offset shape : List Nat) (d c : Nat)
    (hcs : 0 < ds.chunkShape_.getD d 0) (hsh : 0 < shape.getD d 0)
    (hnw : offset.getD d 0 + shape.getD d 0 < SIZE_MOD) :
    (ds.minChunkId offset d ≤ c ∧ c ≤ ds.maxChunkId offset shape d) ↔
      (c * ds.chunkShape_.getD d 0 < offset.getD d 0 + shape.getD d 0 ∧
        offset.getD d 0 < (c + 1) * ds.chunkShape_.getD d 0) := by
  rw [maxChunkId_eq ds offset shape d hcs hsh hnw]
  unfold DatasetTyped.minChunkId
  rw [Nat.le_div_iff_mul_le hcs, ← Nat.lt_succ_iff, Nat.div_lt_iff_lt_mul hcs]
  constructor
  · rintro ⟨h1, h2⟩; exact ⟨by omega, h1⟩
  · rintro ⟨h1, h2⟩; exact ⟨h2, by omega⟩

theorem getD_map_range (f : Nat → Nat) (n d : Nat) (hd : d < n) :
    ((List.range n).map f).getD d 0 = f d := by
  simp [List.getD_eq_getElem?_getD, hd]

/-- Membership in the result of `getChunkRequests`, in terms of the bounds it
computes. -/
theorem mem_getChunkRequests (ds : DatasetTyped) (offset shape c : List Nat) :
    c ∈ ds.getChunkRequests offset shape ↔
      c.length = offset.length ∧
      ∀ d, d < offset.length →
        ds.minChunkId offset d ≤ c.getD d 0 ∧ c.getD d 0 ≤ ds.maxChunkId offset shape d := by
  unfold DatasetTyped.getChunkRequests
  simp only
  rw [mem_makeRegularGrid _ _ (by simp)]
  simp only [List.length_map, List.length_range]
  constructor
  · rintro ⟨h1, h2⟩
    refine ⟨h1, fun d hd => ?_⟩
    have := h2 d hd
    rwa [getD_map_range _ _ _ hd, getD_map_range _ _ _ hd] at this
  · rintro ⟨h1, h2⟩
    refine ⟨h1, fun d hd => ?_⟩
    rw [getD_map_range _ _ _ hd, getD_map_range _ _ _ hd]
    exact h2 d hd

/-- For a request inside the array, `getChunkRequests` returns exactly the chunk
identifiers whose extent intersects the request in every dimension, each once. -/
theorem getChunkRequests_exact (md : DatasetMetadata) (hv : ValidMetadata md)
    (offset shape : List Nat) (hin : InBounds (init md) offset shape) :
    (∀ c, c ∈ (init md).getChunkRequests offset shape ↔ Intersects (init md) offset shape c) ∧
    ((init md).getChunkRequests offset shape).Nodup := by
  refine ⟨fun c => ?_, nodup_makeRegularGrid _ _⟩
  have hnw := (hin.accepted hv).2
  have hlen : offset.length = md.shape.length := hin.1
  rw [mem_getChunkRequests]
  unfold Intersects
  apply and_congr_right
  intro _
  apply forall_congr'
  intro d
  apply imp_congr_right
  intro hd
  have hd2 : d < md.shape.length := hlen ▸ hd
  exact chunkId_range_iff (init md) offset shape d (c.getD d 0)
    (getD_pos_of_forall (hv.1 ▸ hd2) hv.2.2).1 (hin.2.2 d hd2).1 (hnw d hd2)

/-- C1 (failing input): on the dataset with `shape = (10,)`, `chunkShape = (10,)` the
request `offset = (2^64 - 5,)`, `shape = (10,)` is accepted by `checkRequestShape`
(the `size_t` sum wraps to `5`). The extents of the chunks `1844674407370955161`
and `1844674407370955162` intersect `[offset, offset + shape)`, but
`getChunkRequests` returns neither: `minChunkIds = (1844674407370955161,)` and
`maxChunkIds = (0,)`. -/
theorem getChunkRequests_misses_chunks_of_wrapped_request :
    ValidMetadata ⟨true, [10], [10]⟩ ∧
    SizeVec [18446744073709551611] ∧ SizeVec [10] ∧
    Accepted (init ⟨true, [10], [10]⟩) [18446744073709551611] [10] ∧
    Intersects (init ⟨true, [10], [10]⟩) [18446744073709551611] [10] [1844674407370955161] ∧
    Intersects (init ⟨true, [10], [10]⟩) [18446744073709551611] [10] [1844674407370955162] ∧
    (init ⟨true, [10], [10]⟩).minChunkId [18446744073709551611] 0 = 1844674407370955161 ∧
    (init ⟨true, [10], [10]⟩).maxChunkId [18446744073709551611] [10] 0 = 0 ∧
    [1844674407370955161] ∉
      (init ⟨true, [10], [10]⟩).getChunkRequests [18446744073709551611] [10] ∧
    [1844674407370955162] ∉
      (init ⟨true, [10], [10]⟩).getChunkRequests [18446744073709551611] [10] := by
  refine ⟨by decide, by decide, by decide, by decide, by decide, by decide, by decide,
    by decide, ?_, ?_⟩
  · rw [mem_getChunkRequests]
    rintro ⟨-, h⟩
    have := (h 0 (by decide)).2
    revert this
    decide
  · rw [mem_getChunkRequests]
    rintro ⟨-, h⟩
    have := (h 0 (by decide)).2
    revert this
    decide

/-! ### `getCoordinatesInRequest`, one dimension -/

/-- The conversion of a `size_t` difference to `int` is the exact difference when
that difference is an `int` value. -/
theorem toInt_szSub (a b : Nat) (h1 : a < b + INT_HALF) (h2 : b ≤ a + INT_HALF) :
    toInt (szSub a b) = (a : Int) - (b : Int) := by
  unfold toInt szSub
  unfold SIZE_MOD INT_MOD INT_HALF at *
  split <;> omega

theorem toSize_intNeg (i : Int) (h1 : -(INT_HALF : Int) < i) (h2 : i < 0) :
    ((toSize (intNeg i) : Nat) : Int) = -i := by
  unfold intNeg toInt toSize
  unfold SIZE_MOD INT_MOD INT_HALF at *
  split <;> omega

/-- One dimension of `getCoordinatesInRequest` in exact arithmetic. When the request
end and the chunk extent are `int` values and the chunk `[chunkBegin, chunkEnd)`
meets the request `[offset, requestEnd)`, the loop body computes the intersection:
its begin relative to the request and to the chunk, its length, and whether it is
the whole chunk. -/
theorem coordinatesInDim_exact (ds : DatasetTyped) (chunkId offset shape chunkShape : List Nat)
    (d : Nat)
    (hre : offset.getD d 0 + shape.getD d 0 < INT_HALF)
    (hcs : chunkShape.getD d 0 < INT_HALF)
    (h1 : chunkId.getD d 0 * ds.chunkShape_.getD d 0 < offset.getD d 0 + shape.getD d 0)
    (h2 : offset.getD d 0 <
      chunkId.getD d 0 * ds.chunkShape_.getD d 0 + chunkShape.getD d 0) :
    offset.getD d 0 + (ds.coordinatesInDim chunkId offset shape chunkShape d).localOffset =
      max (offset.getD d 0) (chunkId.getD d 0 * ds.chunkShape_.getD d 0) ∧
    (ds.coordinatesInDim chunkId offset shape chunkShape d).inChunkOffset =
      max (offset.getD d 0) (chunkId.getD d 0 * ds.chunkShape_.getD d 0) -
        chunkId.getD d 0 * ds.chunkShape_.getD d 0 ∧
    (ds.coordinatesInDim chunkId offset shape chunkShape d).localShape =
      min (offset.getD d 0 + shape.getD d 0)
          (chunkId.getD d 0 * ds.chunkShape_.getD d 0 + chunkShape.getD d 0) -
        max (offset.getD d 0) (chunkId.getD d 0 * ds.chunkShape_.getD d 0) ∧
    ((ds.coordinatesInDim chunkId offset shape chunkShape d).complete = true ↔
      offset.getD d 0 ≤ chunkId.getD d 0 * ds.chunkShape_.getD d 0 ∧
      chunkId.getD d 0 * ds.chunkShape_.getD d 0 + chunkShape.getD d 0 ≤
        offset.getD d 0 + shape.getD d 0) := by
  have hH : INT_HALF = 2147483648 := rfl
  have hS : SIZE_MOD = 18446744073709551616 := rfl
  have hcb : szMul (chunkId.getD d 0) (ds.chunkShape_.getD d 0) =
      chunkId.getD d 0 * ds.chunkShape_.getD d 0 := szMul_of_lt (by omega)
  unfold DatasetTyped.coordinatesInDim
  simp only [hcb]
  generalize chunkId.getD d 0 * ds.chunkShape_.getD d 0 = cb at *
  generalize chunkShape.getD d 0 = csd at *
  generalize offset.getD d 0 = off at *
  generalize shape.getD d 0 = sh at *
  have hce : szAdd cb csd = cb + csd := szAdd_of_lt (by omega)
  have hre2 : szAdd off sh = off + sh := szAdd_of_lt (by omega)
  rw [hce, hre2]
  have hoff : toInt (szSub cb off) = (cb : Int) - (off : Int) :=
    toInt_szSub _ _ (by omega) (by omega)
  have hend : toInt (szSub (off + sh) (cb + csd)) = ((off + sh : Nat) : Int) - ((cb + csd : Nat) : Int) :=
    toInt_szSub _ _ (by omega) (by omega)
  rw [hoff, hend]
  by_cases hc1 : (cb : Int) - (off : Int) < 0
  · rw [if_pos hc1]
    have hneg := toSize_intNeg ((cb : Int) - (off : Int)) (by omega) hc1
    have hls1 : szSub (cb + csd) off = cb + csd - off := szSub_of_le (by omega) (by omega)
    have hls2 : szSub (off + sh) off = off + sh - off := szSub_of_le (by omega) (by omega)
    simp only [hls1, hls2]
    refine ⟨by omega, by omega, ?_, by simp; omega⟩
    split <;> omega
  · rw [if_neg hc1]
    have hlo : szSub cb off = cb - off := szSub_of_le (by omega) (by omega)
    by_cases hc2 : ((off + sh : Nat) : Int) - ((cb + csd : Nat) : Int) < 0
    · rw [if_pos hc2]
      have hls : szSub (off + sh) cb = off + sh - cb := szSub_of_le (by omega) (by omega)
      simp only [hlo, hls]
      refine ⟨by omega, by omega, by omega, by simp; omega⟩
    · rw [if_neg hc2]
      simp only [hlo]
      refine ⟨by omega, by omega, by omega, by simp; omega⟩

/-! ### `getCoordinatesInRequest`, all dimensions -/

theorem getD_lt_of_forall {v : List Nat} {d b : Nat} (hd : d < v.length)
    (h : ∀ x ∈ v, x < b) : v.getD d 0 < b := by
  have : v.getD d 0 = v[d] := by simp [List.getD_eq_getElem?_getD, hd]
  rw [this]
  exact h _ (List.getElem_mem hd)

/-- Entry `d` of the actual chunk shape, for both layouts. -/
theorem getD_getChunkShape (md : DatasetMetadata) (c : List Nat) (d : Nat)
    (hd : d < md.shape.length) :
    ((init md).getChunkShape c).getD d 0 =
      if md.isZarr = true then md.chunkShape.getD d 0
      else min (md.chunkShape.getD d 0)
        (md.shape.getD d 0 - c.getD d 0 * md.chunkShape.getD d 0) := by
  unfold DatasetTyped.getChunkShape
  show (if md.isZarr = true then _ else _ : List Nat).getD d 0 = _
  split
  · exact getD_map_range _ _ _ hd
  · exact getD_ioN5GetChunkShape _ _ _ _ hd

/-- The side conditions of `coordinatesInDim_exact` for a returned chunk of a request
inside an array whose shape entries are `int` values. -/
theorem chunk_geometry (md : DatasetMetadata) (hv : ValidMetadata md) (hfit : FitsInt md)
    (offset shape : List Nat) (hin : InBounds (init md) offset shape)
    (c : List Nat) (hc : c ∈ (init md).getChunkRequests offset shape)
    (d : Nat) (hd : d < md.shape.length) :
    offset.getD d 0 + shape.getD d 0 < INT_HALF ∧
    ((init md).getChunkShape c).getD d 0 < INT_HALF ∧
    c.getD d 0 * (init md).chunkShape_.getD d 0 < offset.getD d 0 + shape.getD d 0 ∧
    offset.getD d 0 <
      c.getD d 0 * (init md).chunkShape_.getD d 0 + ((init md).getChunkShape c).getD d 0 := by
  have hint := ((getChunkRequests_exact md hv offset shape hin).1 c).mp hc
  have hlen : offset.length = md.shape.length := hin.1
  obtain ⟨h1, h2⟩ := hint.2 d (hlen ▸ hd)
  have hb := hin.2.2 d hd
  have hs : md.shape.getD d 0 < INT_HALF := getD_lt_of_forall hd hfit.1
  have hcs : md.chunkShape.getD d 0 < INT_HALF := getD_lt_of_forall (hv.1 ▸ hd) hfit.2
  have hsh2 : (init md).shape_.getD d 0 = md.shape.getD d 0 := rfl
  have hcs2 : (init md).chunkShape_.getD d 0 = md.chunkShape.getD d 0 := rfl
  rw [hsh2] at hb
  rw [hcs2] at h1 h2 ⊢
  rw [getD_getChunkShape md c d hd]
  rw [Nat.succ_mul] at h2
  refine ⟨by omega, ?_, h1, ?_⟩
  · split
    · exact hcs
    · exact lt_of_le_of_lt (min_le_left _ _) hcs
  · split
    · exact h2
    · omega

theorem getD_getCoordinatesInRequest (ds : DatasetTyped) (c offset shape : List Nat) (d : Nat)
    (hd : d < offset.length) :
    (ds.getCoordinatesInRequest c offset shape).localOffset.getD d 0 =
      (ds.coordinatesInDim c offset shape (ds.getChunkShape c) d).localOffset ∧
    (ds.getCoordinatesInRequest c offset shape).localShape.getD d 0 =
      (ds.coordinatesInDim c offset shape (ds.getChunkShape c) d).localShape ∧
    (ds.getCoordinatesInRequest c offset shape).inChunkOffset.getD d 0 =
      (ds.coordinatesInDim c offset shape (ds.getChunkShape c) d).inChunkOffset := by
  simp [DatasetTyped.getCoordinatesInRequest, List.getD_eq_getElem?_getD, hd]

theorem completeOvlp_iff (ds : DatasetTyped) (c offset shape : List Nat) :
    (ds.getCoordinatesInRequest c offset shape).completeOvlp = true ↔
      ∀ d, d < offset.length →
        (ds.coordinatesInDim c offset shape (ds.getChunkShape c) d).complete = true := by
  simp [DatasetTyped.getCoordinatesInRequest, List.all_eq_true]

/-- For a request inside an array whose shape and chunk shape entries are `int`
values, and a chunk returned by `getChunkRequests`, `getCoordinatesInRequest` yields
the intersection of the chunk with the request in the three coordinate systems. -/
theorem getCoordinatesInRequest_exact (md : DatasetMetadata) (hv : ValidMetadata md)
    (hfit : FitsInt md) (offset shape : List Nat) (hin : InBounds (init md) offset shape)
    (c : List Nat) (hc : c ∈ (init md).getChunkRequests offset shape)
    (d : Nat) (hd : d < md.shape.length) :
    offset.getD d 0 + ((init md).getCoordinatesInRequest c offset shape).localOffset.getD d 0 =
      max (offset.getD d 0) (c.getD d 0 * md.chunkShape.getD d 0) ∧
    ((init md).getCoordinatesInRequest c offset shape).inChunkOffset.getD d 0 =
      max (offset.getD d 0) (c.getD d 0 * md.chunkShape.getD d 0) -
        c.getD d 0 * md.chunkShape.getD d 0 ∧
    ((init md).getCoordinatesInRequest c offset shape).localShape.getD d 0 =
      min (offset.getD d 0 + shape.getD d 0)
          (c.getD d 0 * md.chunkShape.getD d 0 + ((init md).getChunkShape c).getD d 0) -
        max (offset.getD d 0) (c.getD d 0 * md.chunkShape.getD d 0) := by
  have hlen : offset.length = md.shape.length := hin.1
  obtain ⟨g1, g2, g3, g4⟩ := chunk_geometry md hv hfit offset shape hin c hc d hd
  obtain ⟨e1, e2, e3⟩ :=
    getD_getCoordinatesInRequest (init md) c offset shape d (hlen ▸ hd)
  obtain ⟨r1, r2, r3, -⟩ :=
    coordinatesInDim_exact (init md) c offset shape ((init md).getChunkShape c) d g1 g2 g3 g4
  rw [e1, e2, e3]
  exact ⟨r1, r2, r3⟩

/-- For a request inside an array whose shape and chunk shape entries are `int`
values, and a chunk returned by `getChunkRequests`, the flag `completeOverlap` is
true exactly when the chunk's stored extent lies inside the request, and exactly
when `localShape` is the chunk's actual shape. -/
theorem completeOverlap_exact (md : DatasetMetadata) (hv : ValidMetadata md)
    (hfit : FitsInt md) (offset shape : List Nat) (hin : InBounds (init md) offset shape)
    (c : List Nat) (hc : c ∈ (init md).getChunkRequests offset shape) :
    (((init md).getCoordinatesInRequest c offset shape).completeOvlp = true ↔
      ∀ d, d < md.shape.length →
        offset.getD d 0 ≤ c.getD d 0 * md.chunkShape.getD d 0 ∧
        c.getD d 0 * md.chunkShape.getD d 0 + ((init md).getChunkShape c).getD d 0 ≤
          offset.getD d 0 + shape.getD d 0) ∧
    (((init md).getCoordinatesInRequest c offset shape).completeOvlp = true ↔
      ∀ d, d < md.shape.length →
        ((init md).getCoordinatesInRequest c offset shape).localShape.getD d 0 =
          ((init md).getChunkShape c).getD d 0) := by
  have hlen : offset.length = md.shape.length := hin.1
  rw [completeOvlp_iff, hlen]
  constructor
  · apply forall_congr'
    intro d
    apply imp_congr_right
    intro hd
    obtain ⟨g1, g2, g3, g4⟩ := chunk_geometry md hv hfit offset shape hin c hc d hd
    exact (coordinatesInDim_exact (init md) c offset shape _ d g1 g2 g3 g4).2.2.2
  · apply forall_congr'
    intro d
    apply imp_congr_right
    intro hd
    obtain ⟨g1, g2, g3, g4⟩ := chunk_geometry md hv hfit offset shape hin c hc d hd
    obtain ⟨-, -, r3, r4⟩ :=
      coordinatesInDim_exact (init md) c offset shape _ d g1 g2 g3 g4
    rw [(getD_getCoordinatesInRequest (init md) c offset shape d (hlen ▸ hd)).2.1, r3, r4]
    constructor
    · intro h; omega
    · intro h; omega

/-! ### Requests longer than `INT_MAX` -/

/-- C3 (failing input): on the dataset with `shape = (4294967296,)`,
`chunkShape = (1073741824,)` the request `offset = (1,)`, `shape = (4294967295,)` is
accepted and `getChunkRequests` returns the chunks `0, 1, 2, 3`. Chunk `(1,)` is
`[2^30, 2^31)` and lies inside the request, so the intersection has
`localShape = 2^30`; the code yields `localShape = 3221225472`, because
`endDiff = requestEnd - chunkEnd = 2^31` does not fit the `int` it is stored in.
Chunk `(3,)` begins at `3 * 2^30`, so `offset + localOffset` should be `3 * 2^30`;
the code yields `localOffset = 0` (`offDiff` is negative as an `int`). The values
of the spec's scenario (`shape = (100,)`, `chunkShape = (10,)`, request `(7, 15)`)
are as claimed. -/
theorem getCoordinatesInRequest_int_truncation :
    ValidMetadata ⟨true, [4294967296], [1073741824]⟩ ∧
    Accepted (init ⟨true, [4294967296], [1073741824]⟩) [1] [4294967295] ∧
    (init ⟨true, [4294967296], [1073741824]⟩).getChunkRequests [1] [4294967295] =
      [[0], [1], [2], [3]] ∧
    (init ⟨true, [4294967296], [1073741824]⟩).getChunkShape [1] = [1073741824] ∧
    min (1 + 4294967295) (1 * 1073741824 + 1073741824) - max 1 (1 * 1073741824) = 1073741824 ∧
    (init ⟨true, [4294967296], [1073741824]⟩).getCoordinatesInRequest [1] [1] [4294967295] =
      { localOffset := [1073741823], localShape := [3221225472], inChunkOffset := [0],
        completeOvlp := false } ∧
    max 1 (3 * 1073741824) = 3221225472 ∧
    (init ⟨true, [4294967296], [1073741824]⟩).getCoordinatesInRequest [3] [1] [4294967295] =
      { localOffset := [0], localShape := [4294967295], inChunkOffset := [1073741825],
        completeOvlp := false } ∧
    (init ⟨false, [4294967296], [1073741824]⟩).getCoordinatesInRequest [1] [1] [4294967295] =
      { localOffset := [1073741823], localShape := [3221225472], inChunkOffset := [0],
        completeOvlp := false } ∧
    ((init ⟨true, [100], [10]⟩).getChunkRequests [7] [15]).map
        (fun c => (init ⟨true, [100], [10]⟩).getCoordinatesInRequest c [7] [15]) =
      [{ localOffset := [0], localShape := [3], inChunkOffset := [7], completeOvlp := false },
       { localOffset := [3], localShape := [10], inChunkOffset := [0], completeOvlp := true },
       { localOffset := [13], localShape := [2], inChunkOffset := [0],
         completeOvlp := false }] := by
  refine ⟨by decide, by decide, by decide, by decide, by decide, by decide, by decide,
    by decide, by decide, by decide⟩

/-- C4 (failing input): on the dataset with `shape = (4294967296,)`,
`chunkShape = (1073741824,)` and the accepted request `offset = (1,)`,
`shape = (4294967295,)`, the returned chunk `(1,)` has the stored extent
`[2^30, 2^31)`, which lies inside the request `[1, 2^32)`, but
`getCoordinatesInRequest` returns `completeOverlap = false`, under both layouts:
`endDiff = 2^31` is negative once stored in an `int`. -/
theorem completeOverlap_false_for_contained_chunk :
    Accepted (init ⟨true, [4294967296], [1073741824]⟩) [1] [4294967295] ∧
    [1] ∈ (init ⟨true, [4294967296], [1073741824]⟩).getChunkRequests [1] [4294967295] ∧
    (init ⟨true, [4294967296], [1073741824]⟩).getChunkShape [1] = [1073741824] ∧
    (init ⟨false, [4294967296], [1073741824]⟩).getChunkShape [1] = [1073741824] ∧
    (1 ≤ 1 * 1073741824 ∧ 1 * 1073741824 + 1073741824 ≤ 1 + 4294967295) ∧
    ((init ⟨true, [4294967296], [1073741824]⟩).getCoordinatesInRequest [1] [1]
      [4294967295]).completeOvlp = false ∧
    ((init ⟨false, [4294967296], [1073741824]⟩).getCoordinatesInRequest [1] [1]
      [4294967295]).completeOvlp = false := by
  refine ⟨by decide, by decide, by decide, by decide, by decide, by decide, by decide⟩

/-- C2 (failing input): on the dataset with `shape = (4294967296,)`,
`chunkShape = (1073741824,)` and the accepted request `offset = (1,)`,
`shape = (4294967295,)`, the four returned chunks get the local shapes
`1073741823`, `3221225472`, `1073741824`, `4294967295`, which sum to `9663676414`
and not to the `4294967295` elements of the request, under both layouts. For the
spec's scenario (`shape = (100,)`, `chunkShape = (10,)`, request `(7, 15)`) the sum
is `15`. -/
theorem coveredVolume_exceeds_request :
    Accepted (init ⟨true, [4294967296], [1073741824]⟩) [1] [4294967295] ∧
    Accepted (init ⟨false, [4294967296], [1073741824]⟩) [1] [4294967295] ∧
    [4294967295].prod = 4294967295 ∧
    coveredVolume (init ⟨true, [4294967296], [1073741824]⟩) [1] [4294967295] = 9663676414 ∧
    coveredVolume (init ⟨false, [4294967296], [1073741824]⟩) [1] [4294967295] = 9663676414 ∧
    coveredVolume (init ⟨true, [100], [10]⟩) [7] [15] = 15 := by
  refine ⟨by decide, by decide, by decide, by decide, by decide, by decide⟩

/-! ### The local regions add up to the request -/

theorem sum_map_flatMap {α β : Type} (l : List α) (g : α → List β) (h : β → Nat) :
    ((l.flatMap g).map h).sum = (l.map fun a => ((g a).map h).sum).sum := by
  induction l with
  | nil => simp
  | cons a l ih => simp [List.flatMap_cons, ih]

/-- Summing a product of per-dimension terms over the grid gives the product of the
per-dimension sums. -/
theorem grid_sum_prod (fs : List (Nat → Nat)) (los his : List Nat)
    (h1 : fs.length = los.length) (h2 : los.length = his.length) :
    ((makeRegularGrid los his).map fun c => (List.zipWith (fun f x => f x) fs c).prod).sum =
      (List.zipWith (fun f (p : Nat × Nat) => ((gridRange p.1 p.2).map f).sum) fs
        (los.zip his)).prod := by
  induction fs generalizing los his with
  | nil =>
    cases los with
    | nil => rw [makeRegularGrid_nil_left]; simp
    | cons lo los => simp at h1
  | cons f fs ih =>
    cases los with
    | nil => simp at h1
    | cons lo los =>
      cases his with
      | nil => simp at h2
      | cons hi his =>
        have h1x : fs.length = los.length := by simpa using h1
        have h2x : los.length = his.length := by simpa using h2
        rw [makeRegularGrid_cons, sum_map_flatMap]
        have key : ∀ a : Nat,
            (((makeRegularGrid los his).map fun c => a :: c).map fun c =>
              (List.zipWith (fun f x => f x) (f :: fs) c).prod).sum =
            f a * (List.zipWith (fun f (p : Nat × Nat) => ((gridRange p.1 p.2).map f).sum) fs
              (los.zip his)).prod := by
          intro a
          rw [← ih los his h1x h2x, ← List.sum_map_mul_left, List.map_map]
          rfl
        simp only [key, List.zip_cons_cons, List.zipWith_cons_cons, List.prod_cons,
          List.sum_map_mul_right]

/-- In one dimension the intersections of the request with the chunks from
`offset / chunkShape` to `(offset + shape - 1) / chunkShape` add up to the length of
the request. -/
theorem overlap_sum (off sh cs : Nat) (T : Nat → Nat) (hcs : 0 < cs) (hsh : 0 < sh)
    (hT : ∀ i, off / cs ≤ i → i ≤ (off + sh - 1) / cs →
      T i = min (off + sh) ((i + 1) * cs) - max off (i * cs)) :
    ((gridRange (off / cs) ((off + sh - 1) / cs)).map T).sum = sh := by
  have hlo1 : off / cs * cs ≤ off := Nat.div_mul_le_self _ _
  have hlo2 : off < (off / cs + 1) * cs := by
    have := Nat.lt_succ_iff.mpr (le_refl (off / cs))
    exact (Nat.div_lt_iff_lt_mul hcs).mp this
  have hhi1 : (off + sh - 1) / cs * cs ≤ off + sh - 1 := Nat.div_mul_le_self _ _
  have hhi2 : off + sh - 1 < ((off + sh - 1) / cs + 1) * cs := by
    have := Nat.lt_succ_iff.mpr (le_refl ((off + sh - 1) / cs))
    exact (Nat.div_lt_iff_lt_mul hcs).mp this
  have hlohi : off / cs ≤ (off + sh - 1) / cs := Nat.div_le_div_right (by omega)
  generalize off / cs = lo at *
  generalize (off + sh - 1) / cs = hi at *
  have key : ∀ k, lo + k ≤ hi →
      ((List.range (k + 1)).map fun j => T (lo + j)).sum =
        min (off + sh) ((lo + k + 1) * cs) - off := by
    intro k
    induction k with
    | zero =>
      intro _
      rw [List.sum_range_succ]
      simp only [List.range_zero, List.map_nil, List.sum_nil, Nat.zero_add, Nat.add_zero]
      rw [hT lo (le_refl _) hlohi]
      omega
    | succ k ih =>
      intro hk
      rw [List.sum_range_succ, ih (by omega), hT (lo + (k + 1)) (by omega) hk]
      have e1 : (lo + (k + 1) + 1) * cs = (lo + k + 1) * cs + cs := by ring
      have e2 : (lo + (k + 1)) * cs = (lo + k + 1) * cs := by ring
      have e3 : (lo + k + 1) * cs ≤ hi * cs := Nat.mul_le_mul_right _ (by omega)
      have e4 : (lo + 1) * cs ≤ (lo + k + 1) * cs := Nat.mul_le_mul_right _ (by omega)
      rw [e1, e2]
      omega
  unfold gridRange
  rw [List.map_map]
  have hn : hi + 1 - lo = (hi - lo) + 1 := by omega
  rw [hn]
  have := key (hi - lo) (by omega)
  rw [show lo + (hi - lo) + 1 = hi + 1 by omega] at this
  show ((List.range (hi - lo + 1)).map fun j => T (lo + j)).sum = sh
  rw [this]
  omega

theorem overlapLength_sum (md : DatasetMetadata) (hv : ValidMetadata md)
    (offset shape : List Nat) (hin : InBounds (init md) offset shape)
    (d : Nat) (hd : d < md.shape.length) :
    ((gridRange ((init md).minChunkId offset d) ((init md).maxChunkId offset shape d)).map
      (overlapLength md offset shape d)).sum = shape.getD d 0 := by
  have hcs := (getD_pos_of_forall (hv.1 ▸ hd) hv.2.2).1
  have hb := hin.2.2 d hd
  have hnw := (hin.accepted hv).2 d hd
  rw [maxChunkId_eq (init md) offset shape d hcs hb.1 hnw]
  unfold DatasetTyped.minChunkId
  have hsh2 : (init md).shape_.getD d 0 = md.shape.getD d 0 := rfl
  rw [hsh2] at hb
  change 0 < md.chunkShape.getD d 0 at hcs
  apply overlap_sum _ _ _ _ hcs hb.1
  intro i _ hi
  rw [Nat.le_div_iff_mul_le hcs] at hi
  unfold overlapLength
  rw [Nat.succ_mul]
  split <;> omega

/-- For a returned chunk the vector `localShape` lists the exact overlap lengths. -/
theorem localShape_eq (md : DatasetMetadata) (hv : ValidMetadata md) (hfit : FitsInt md)
    (offset shape : List Nat) (hin : InBounds (init md) offset shape)
    (ch : List Nat) (hc : ch ∈ (init md).getChunkRequests offset shape) :
    ((init md).getCoordinatesInRequest ch offset shape).localShape =
      List.zipWith (fun f x => f x)
        ((List.range offset.length).map (overlapLength md offset shape)) ch := by
  have hlen : offset.length = md.shape.length := hin.1
  have hclen : ch.length = offset.length := ((mem_getChunkRequests _ _ _ _).mp hc).1
  apply List.ext_getElem
  · simp [DatasetTyped.getCoordinatesInRequest, hclen]
  · intro d h1 h2
    have hd : d < offset.length := by
      simpa [DatasetTyped.getCoordinatesInRequest] using h1
    have hdc : d < ch.length := hclen ▸ hd
    have e := (getCoordinatesInRequest_exact md hv hfit offset shape hin ch hc d (hlen ▸ hd)).2.2
    rw [List.getD_eq_getElem?_getD, List.getElem?_eq_getElem h1, Option.getD_some] at e
    rw [e, getD_getChunkShape md ch d (hlen ▸ hd)]
    rw [List.getElem_zipWith, List.getElem_map, List.getElem_range]
    have hcd : ch.getD d 0 = ch[d] := by simp [List.getD_eq_getElem?_getD, hdc]
    unfold overlapLength
    rw [hcd]

/-- For a request inside an array whose shape and chunk shape entries are `int`
values, the products of `localShape` over the chunks returned by `getChunkRequests`
add up to the product of the request shape, under both layouts. -/
theorem coveredVolume_eq_prod (md : DatasetMetadata) (hv : ValidMetadata md)
    (hfit : FitsInt md) (offset shape : List Nat) (hin : InBounds (init md) offset shape) :
    coveredVolume (init md) offset shape = shape.prod := by
  have hlen : offset.length = md.shape.length := hin.1
  have hslen : shape.length = md.shape.length := hin.2.1
  unfold coveredVolume
  rw [List.map_congr_left fun c hc =>
    congrArg List.prod (localShape_eq md hv hfit offset shape hin c hc)]
  unfold DatasetTyped.getChunkRequests
  simp only
  rw [grid_sum_prod _ _ _ (by simp) (by simp)]
  congr 1
  apply List.ext_getElem
  · simp [hlen, hslen]
  · intro d h1 h2
    have hd : d < offset.length := by simpa using h1
    rw [List.getElem_zipWith, List.getElem_map, List.getElem_range, List.getElem_zip,
      List.getElem_map, List.getElem_map, List.getElem_range]
    have := overlapLength_sum md hv offset shape hin d (hlen ▸ hd)
    rw [this]
    simp [List.getD_eq_getElem?_getD, h2]

theorem coveredVolume_eq_prod_witness :
    coveredVolume (init ⟨false, [20, 20, 20], [13, 5, 9]⟩) [3, 4, 5] [15, 7, 14] =
      [15, 7, 14].prod :=
  coveredVolume_eq_prod ⟨false, [20, 20, 20], [13, 5, 9]⟩ (by decide) (by decide)
    [3, 4, 5] [15, 7, 14] (by decide)

/-! ### Layout A: every chunk has the full chunk shape -/

theorem map_range_getD (v : List Nat) : ((List.range v.length).map fun d => v.getD d 0) = v := by
  apply List.ext_getElem
  · simp
  · intro d h1 h2
    simp [List.getD_eq_getElem?_getD, h2]

/-- C11: under layout A (zarr), for a dataset built by `init` from metadata of equal
ranks and every chunk identifier `chunk` (valid or not, boundary or not),
`getChunkShape(chunk)` is `chunkShape`, which is `maxChunkShape()`,
`getChunkShape(chunk, d)` is `chunkShape[d]` for every `d < D`, and
`getChunkSize(chunk)` is `maxChunkSize()`. For `shape = (10,)`, `chunkShape = (4,)`
the boundary chunk `(2,)`, of which only two elements are inside the array, has
shape `(4,)`. -/
theorem getChunkShape_zarr (md : DatasetMetadata) (hA : md.isZarr = true)
    (hlen : md.shape.length = md.chunkShape.length) (chunk : List Nat) :
    (init md).getChunkShape chunk = md.chunkShape ∧
    (init md).getChunkShape chunk = (init md).maxChunkShape ∧
    (∀ d, d < md.shape.length →
      (init md).getChunkShapeDim chunk d = md.chunkShape.getD d 0 ∧
      (init md).getChunkShapeDim chunk d = (init md).maxChunkShapeAt d) ∧
    (init md).getChunkSize chunk = (init md).maxChunkSize ∧
    (init ⟨true, [10], [4]⟩).getChunkShape [2] = [4] := by
  have h1 : (init md).getChunkShape chunk = md.chunkShape := by
    unfold DatasetTyped.getChunkShape
    show (if md.isZarr = true then _ else _ : List Nat) = _
    rw [if_pos hA]
    show ((List.range md.shape.length).map fun d => md.chunkShape.getD d 0) = md.chunkShape
    rw [hlen]
    exact map_range_getD _
  refine ⟨h1, h1, ?_, ?_, by decide⟩
  · intro d _
    have : (init md).getChunkShapeDim chunk d = md.chunkShape.getD d 0 := by
      unfold DatasetTyped.getChunkShapeDim
      show (if md.isZarr = true then _ else _ : Nat) = _
      rw [if_pos hA]
      rfl
    exact ⟨this, this⟩
  · unfold DatasetTyped.getChunkSize
    show (if md.isZarr = true then _ else _ : Nat) = _
    rw [if_pos hA]

theorem getChunkShape_zarr_witness :
    (init ⟨true, [20, 20, 20], [13, 5, 9]⟩).getChunkShape [1, 3, 2] = [13, 5, 9] ∧
    (init ⟨true, [20, 20, 20], [13, 5, 9]⟩).getChunkSize [1, 3, 2] =
      (init ⟨true, [20, 20, 20], [13, 5, 9]⟩).maxChunkSize :=
  ⟨(getChunkShape_zarr ⟨true, [20, 20, 20], [13, 5, 9]⟩ rfl rfl [1, 3, 2]).1,
    (getChunkShape_zarr ⟨true, [20, 20, 20], [13, 5, 9]⟩ rfl rfl [1, 3, 2]).2.2.2.1⟩

/-! ### The raw codec -/

theorem take_copyInto (src dst : List Element) :
    (copyInto src dst).take src.length = src := by
  unfold copyInto
  rw [List.take_append_of_le_length (le_refl _), List.take_length]

theorem drop_copyInto (src dst : List Element) :
    (copyInto src dst).drop src.length = dst.drop src.length := by
  unfold copyInto
  rw [List.drop_append_of_le_length (le_refl _), List.drop_length, List.nil_append]

theorem getElem?_copyInto_of_le (src dst : List Element) (i : Nat) (hi : src.length ≤ i) :
    (copyInto src dst)[i]? = dst[i]? := by
  unfold copyInto
  rw [List.getElem?_append_right hi, List.getElem?_drop]
  congr 1
  omega

/-- C15: the raw codec is the identity. For every buffer `x` and count
`n ≤ length(x)`, `compress(x, out, n)` returns normally and sets `out` to the first
`n` elements of `x`, whatever `out` held before; `decompress(out, dst, n)` then
returns normally, makes the first `n` elements of `dst` equal to the first `n`
elements of `x`, and leaves the rest of `dst` as it was. -/
theorem rawCompressor_identity (x out dst : List Element) (n : Nat) (hn : n ≤ x.length) :
    rawCompressor.compress x out n = Except.ok (x.take n) ∧
    (∀ out2, rawCompressor.compress x out2 n = rawCompressor.compress x out n) ∧
    rawCompressor.decompress (x.take n) dst n = Except.ok (copyInto (x.take n) dst) ∧
    (copyInto (x.take n) dst).take n = x.take n ∧
    (copyInto (x.take n) dst).drop n = dst.drop n := by
  have hl : (x.take n).length = n := by rw [List.length_take]; omega
  refine ⟨rfl, fun _ => rfl, rfl, ?_, ?_⟩
  · have := take_copyInto (x.take n) dst
    rwa [hl] at this
  · have := drop_copyInto (x.take n) dst
    rwa [hl] at this

theorem rawCompressor_identity_witness :
    (copyInto ([[1, 2], [3, 4], [5, 6]].take 2) [[0, 0], [0, 0], [9, 9]]).take 2 =
      [[1, 2], [3, 4], [5, 6]].take 2 :=
  (rawCompressor_identity [[1, 2], [3, 4], [5, 6]] [[7, 7]] [[0, 0], [0, 0], [9, 9]] 2
    (by decide)).2.2.2.1

/-- C14 (counterexample): `decompress` of the raw codec with a source of three
elements and `dstCount = 2` returns normally, and it writes three elements: the
third element of the destination is overwritten. -/
theorem rawDecompress_ignores_count :
    [[1], [2], [3]].length ≠ 2 ∧
    rawCompressor.decompress [[1], [2], [3]] [[0], [0], [0], [0]] 2 =
      Except.ok [[1], [2], [3], [0]] :=
  ⟨by decide, rfl⟩

/-- C14 (amended): for the raw codec, `decompress(src, dst, dstCount)` never fails
and does not look at `dstCount`: it copies all `length(src)` elements of `src` to
the first `length(src)` positions of `dst` and leaves every later position
unchanged. So it writes exactly `length(src)` elements, and no more than `dstCount`
whenever `length(src) ≤ dstCount`. -/
theorem rawDecompress_copies_source (src dst : List Element) (dstCount : Nat) :
    rawCompressor.decompress src dst dstCount = Except.ok (copyInto src dst) ∧
    (∀ dstCount2, rawCompressor.decompress src dst dstCount2 =
      rawCompressor.decompress src dst dstCount) ∧
    (copyInto src dst).take src.length = src ∧
    (∀ i, src.length ≤ i → (copyInto src dst)[i]? = dst[i]?) ∧
    (src.length ≤ dstCount → ∀ i, dstCount ≤ i → (copyInto src dst)[i]? = dst[i]?) :=
  ⟨rfl, fun _ => rfl, take_copyInto src dst, getElem?_copyInto_of_le src dst,
    fun h i hi => getElem?_copyInto_of_le src dst i (le_trans h hi)⟩

/-! ### `readChunk` and `writeChunk` -/

theorem checkChunk_of_valid {ds : DatasetTyped} {chunk : List Nat} (h : ValidChunk ds chunk) :
    ds.checkChunk chunk = Except.ok () := by
  unfold ValidChunk at h
  cases hc : ds.checkChunk chunk with
  | error e => rw [hc] at h; simp [Except.isOk, Except.toBool] at h
  | ok u => rfl

theorem checkChunk_of_invalid {ds : DatasetTyped} {chunk : List Nat} (h : ¬ValidChunk ds chunk) :
    ∃ e, ds.checkChunk chunk = Except.error e := by
  unfold ValidChunk at h
  cases hc : ds.checkChunk chunk with
  | error e => exact ⟨e, rfl⟩
  | ok u => rw [hc] at h; simp [Except.isOk, Except.toBool] at h

/-- The local `chunkSize` is `maxChunkSize()` under layout A and the product of the
chunk's actual shape under layout B. -/
theorem chunkSize_eq (eng : DatasetEngine) (chunk : List Nat) :
    (eng.geometry.isZarr_ = true → eng.chunkSize chunk = eng.geometry.maxChunkSize) ∧
    (eng.geometry.isZarr_ = false →
      eng.chunkSize chunk = (eng.geometry.getChunkShape chunk).prod) := by
  unfold DatasetEngine.chunkSize DatasetTyped.getChunkShape
  constructor
  · intro h; rw [if_pos h]; rfl
  · intro h; simp [h, ioN5GetChunkSize]

theorem getElem?_fillInto_of_lt (n : Nat) (v : Element) (dst : List Element) (i : Nat)
    (hi : i < n) : (fillInto n v dst)[i]? = some v := by
  unfold fillInto
  rw [List.getElem?_append_left (by simpa using hi)]
  simp [hi]

theorem getElem?_fillInto_of_le (n : Nat) (v : Element) (dst : List Element) (i : Nat)
    (hi : n ≤ i) : (fillInto n v dst)[i]? = dst[i]? := by
  unfold fillInto
  rw [List.getElem?_append_right (by simpa using hi), List.getElem?_drop]
  congr 1
  simp
  omega

/-- The read of a valid chunk whose file is absent. -/
theorem readChunk_absent (eng : DatasetEngine) (chunk : List Nat) (buf : List Element)
    (fs : FileSystem) (hv : ValidChunk eng.geometry chunk) (habs : fs.chunkFile chunk = none) :
    eng.readChunk chunk buf fs =
      { result := Except.ok ()
        fs := { fs with log := fs.log ++ [FsOp.readChunk chunk] }
        dataOut := fillInto (eng.chunkSize chunk) eng.fillValue_ buf } := by
  unfold DatasetEngine.readChunk
  rw [checkChunk_of_valid hv]
  simp only [ioRead, habs, Option.map_none']

/-- C13: for every valid chunk identifier whose chunk file is absent,
`readChunk(chunk, buf)` returns normally, sets `buf[i]` to the fill value for every
`i` below the chunk size and leaves every element at an index from the chunk size on
unchanged; no chunk file is created. The chunk size is `maxChunkSize()` under layout
A and the chunk's actual element count under layout B. For `shape = (10,)`,
`chunkShape = (4,)`, fill value `-1` (the bytes `ff ff ff ff`), reading chunk `(2,)`
into a buffer of two elements gives `[-1, -1]` under layout B; under layout A four
elements are filled. -/
theorem readChunk_absent_fills (eng : DatasetEngine) (chunk : List Nat) (buf : List Element)
    (fs : FileSystem) (hv : ValidChunk eng.geometry chunk) (habs : fs.chunkFile chunk = none) :
    (eng.readChunk chunk buf fs).result = Except.ok () ∧
    (∀ i, i < eng.chunkSize chunk →
      (eng.readChunk chunk buf fs).dataOut[i]? = some eng.fillValue_) ∧
    (∀ i, eng.chunkSize chunk ≤ i → (eng.readChunk chunk buf fs).dataOut[i]? = buf[i]?) ∧
    (eng.readChunk chunk buf fs).fs.chunks = fs.chunks ∧
    (eng.geometry.isZarr_ = true → eng.chunkSize chunk = eng.geometry.maxChunkSize) ∧
    (eng.geometry.isZarr_ = false →
      eng.chunkSize chunk = (eng.geometry.getChunkShape chunk).prod) ∧
    (DatasetEngine.readChunk
        ⟨init ⟨false, [10], [4]⟩, 4, [255, 255, 255, 255], rawCompressor⟩ [2]
        [[0, 0, 0, 0], [0, 0, 0, 0]] ⟨true, none, [], []⟩).dataOut =
      [[255, 255, 255, 255], [255, 255, 255, 255]] ∧
    (DatasetEngine.readChunk
        ⟨init ⟨true, [10], [4]⟩, 4, [255, 255, 255, 255], rawCompressor⟩ [2]
        [[0, 0, 0, 0], [0, 0, 0, 0], [0, 0, 0, 0], [0, 0, 0, 0], [1, 2, 3, 4]]
        ⟨true, none, [], []⟩).dataOut =
      [[255, 255, 255, 255], [255, 255, 255, 255], [255, 255, 255, 255],
        [255, 255, 255, 255], [1, 2, 3, 4]] := by
  rw [readChunk_absent eng chunk buf fs hv habs]
  refine ⟨rfl, fun i hi => getElem?_fillInto_of_lt _ _ _ i hi,
    fun i hi => getElem?_fillInto_of_le _ _ _ i hi, rfl, (chunkSize_eq eng chunk).1,
    (chunkSize_eq eng chunk).2, by decide, by decide⟩

theorem readChunk_absent_fills_witness :
    ValidChunk (init ⟨false, [20, 20, 20], [13, 5, 9]⟩) [1, 0, 2] ∧
    (DatasetEngine.readChunk
      ⟨init ⟨false, [20, 20, 20], [13, 5, 9]⟩, 2, [0, 7], rawCompressor⟩ [1, 0, 2] []
      ⟨true, none, [], []⟩).result = Except.ok () :=
  ⟨by decide,
    (readChunk_absent_fills
      ⟨init ⟨false, [20, 20, 20], [13, 5, 9]⟩, 2, [0, 7], rawCompressor⟩ [1, 0, 2] []
      ⟨true, none, [], []⟩ (by decide) rfl).1⟩


theorem writeChunk_invalid (eng : DatasetEngine) (chunk : List Nat) (dataIn : List Element)
    (fs : FileSystem) (h : ¬ValidChunk eng.geometry chunk) :
    ∃ e, eng.writeChunk chunk dataIn fs =
      { result := Except.error e, fs := fs, dataIn := dataIn, compressCalls := [] } := by
  obtain ⟨e, he⟩ := checkChunk_of_invalid h
  exact ⟨e, by unfold DatasetEngine.writeChunk; rw [he]⟩

theorem readChunk_invalid (eng : DatasetEngine) (chunk : List Nat) (dataOut : List Element)
    (fs : FileSystem) (h : ¬ValidChunk eng.geometry chunk) :
    ∃ e, eng.readChunk chunk dataOut fs =
      { result := Except.error e, fs := fs, dataOut := dataOut } := by
  obtain ⟨e, he⟩ := checkChunk_of_invalid h
  exact ⟨e, by unfold DatasetEngine.readChunk; rw [he]⟩

/-- C16: if the chunk identifier does not have length `D`, or some index is not
below `chunksPerDimension`, then `writeChunk` and `readChunk` throw, the file system
is left exactly as it was (no chunk file is read, created or modified), no codec
call is made and the caller's buffers are unchanged. For every identifier of length
`D` with every index below `chunksPerDimension`, `checkChunk` returns normally. -/
theorem invalid_chunk_is_rejected_first (eng : DatasetEngine) (chunk : List Nat)
    (dataIn dataOut : List Element) (fs : FileSystem) :
    ((chunk.length ≠ eng.geometry.dimension ∨
        ∃ d, d < eng.geometry.dimension ∧
          eng.geometry.chunksPerDimensionAt d ≤ chunk.getD d 0) →
      (eng.writeChunk chunk dataIn fs).result.isOk = false ∧
      (eng.writeChunk chunk dataIn fs).fs = fs ∧
      (eng.writeChunk chunk dataIn fs).compressCalls = [] ∧
      (eng.writeChunk chunk dataIn fs).dataIn = dataIn ∧
      (eng.readChunk chunk dataOut fs).result.isOk = false ∧
      (eng.readChunk chunk dataOut fs).fs = fs ∧
      (eng.readChunk chunk dataOut fs).dataOut = dataOut) ∧
    ((chunk.length = eng.geometry.dimension ∧
        ∀ d, d < eng.geometry.dimension →
          chunk.getD d 0 < eng.geometry.chunksPerDimensionAt d) →
      eng.geometry.checkChunk chunk = Except.ok ()) := by
  constructor
  · intro h
    have hinv : ¬ValidChunk eng.geometry chunk := by
      rw [validChunk_iff]
      rintro ⟨h1, h2⟩
      rcases h with h | ⟨d, hd, hge⟩
      · exact h h1
      · have := h2 d hd
        unfold DatasetTyped.chunksPerDimensionAt at hge
        omega
    obtain ⟨e1, he1⟩ := writeChunk_invalid eng chunk dataIn fs hinv
    obtain ⟨e2, he2⟩ := readChunk_invalid eng chunk dataOut fs hinv
    rw [he1, he2]
    exact ⟨rfl, rfl, rfl, rfl, rfl, rfl, rfl⟩
  · intro h
    exact checkChunk_of_valid ((validChunk_iff _ _).mpr h)

theorem invalid_chunk_is_rejected_first_witness :
    (DatasetEngine.writeChunk
      ⟨init ⟨false, [10], [4]⟩, 4, [0, 0, 0, 0], rawCompressor⟩ [3] [[1, 2, 3, 4]]
      ⟨true, none, [([0], ⟨some [4], []⟩)], []⟩).fs =
      ⟨true, none, [([0], ⟨some [4], []⟩)], []⟩ ∧
    (init ⟨false, [10], [4]⟩).checkChunk [2] = Except.ok () :=
  ⟨((invalid_chunk_is_rejected_first
      ⟨init ⟨false, [10], [4]⟩, 4, [0, 0, 0, 0], rawCompressor⟩ [3] [[1, 2, 3, 4]] []
      ⟨true, none, [([0], ⟨some [4], []⟩)], []⟩).1
      (Or.inr ⟨0, by decide, by decide⟩)).2.1,
    (invalid_chunk_is_rejected_first
      ⟨init ⟨false, [10], [4]⟩, 4, [0, 0, 0, 0], rawCompressor⟩ [2] [] []
      ⟨true, none, [], []⟩).2 ⟨by decide, by decide⟩⟩

/-- The codec call of `writeChunk` for a valid chunk. -/
theorem writeChunk_compressCalls (eng : DatasetEngine) (chunk : List Nat)
    (dataIn : List Element) (fs : FileSystem) (hv : ValidChunk eng.geometry chunk) :
    (eng.writeChunk chunk dataIn fs).compressCalls =
      [(eng.compressInput chunk dataIn, eng.chunkSize chunk)] ∧
    (eng.writeChunk chunk dataIn fs).dataIn = dataIn := by
  unfold DatasetEngine.writeChunk
  rw [checkChunk_of_valid hv]
  simp only
  cases eng.compressor_.compress (eng.compressInput chunk dataIn) [] (eng.chunkSize chunk) <;>
    exact ⟨rfl, rfl⟩

/-- C19: for every valid chunk, `writeChunk(chunk, buf)` makes one call of
`compress`, with the count `maxChunkSize()` under layout A and with the chunk's
actual element count (the product of its actual shape) under layout B; under layout
A the pointer passed is the caller's buffer. For `shape = (10,)`,
`chunkShape = (4,)` and the boundary chunk `(2,)`, which has two elements inside the
array, the count is `4` under layout A and `2` under layout B. -/
theorem writeChunk_count (eng : DatasetEngine) (chunk : List Nat) (buf : List Element)
    (fs : FileSystem) (hv : ValidChunk eng.geometry chunk) :
    (eng.geometry.isZarr_ = true →
      (eng.writeChunk chunk buf fs).compressCalls = [(buf, eng.geometry.maxChunkSize)]) ∧
    (eng.geometry.isZarr_ = false →
      ((eng.writeChunk chunk buf fs).compressCalls.map fun call => call.2) =
        [(eng.geometry.getChunkShape chunk).prod]) ∧
    ((DatasetEngine.writeChunk ⟨init ⟨true, [10], [4]⟩, 1, [0], rawCompressor⟩ [2]
        [[1], [2], [3], [4]] ⟨true, none, [], []⟩).compressCalls.map fun call => call.2) =
      [4] ∧
    ((DatasetEngine.writeChunk ⟨init ⟨false, [10], [4]⟩, 1, [0], rawCompressor⟩ [2]
        [[1], [2]] ⟨true, none, [], []⟩).compressCalls.map fun call => call.2) = [2] := by
  have hc := (writeChunk_compressCalls eng chunk buf fs hv).1
  refine ⟨?_, ?_, by decide, by decide⟩
  · intro hA
    rw [hc, (chunkSize_eq eng chunk).1 hA]
    have : eng.compressInput chunk buf = buf := by
      unfold DatasetEngine.compressInput DatasetEngine.reversesEndianness
      simp [hA]
    rw [this]
  · intro hB
    rw [hc, (chunkSize_eq eng chunk).2 hB]
    rfl

theorem writeChunk_count_witness :
    (DatasetEngine.writeChunk ⟨init ⟨true, [20, 20, 20], [13, 5, 9]⟩, 1, [0], rawCompressor⟩
      [1, 3, 2] [] ⟨true, none, [], []⟩).compressCalls = [([], 585)] :=
  (writeChunk_count ⟨init ⟨true, [20, 20, 20], [13, 5, 9]⟩, 1, [0], rawCompressor⟩
    [1, 3, 2] [] ⟨true, none, [], []⟩ (by decide)).1 rfl


theorem reversesEndianness_iff (eng : DatasetEngine) :
    eng.reversesEndianness = true ↔ eng.geometry.isZarr_ = false ∧ 1 < eng.sizeofT := by
  unfold DatasetEngine.reversesEndianness
  cases eng.geometry.isZarr_ <;> simp

/-- The read of a valid chunk whose file is present and decodes. -/
theorem readChunk_present (eng : DatasetEngine) (chunk : List Nat) (dataOut : List Element)
    (fs : FileSystem) (hv : ValidChunk eng.geometry chunk) (file : ChunkFile)
    (hfile : fs.chunkFile chunk = some file) (decoded : List Element)
    (hdec : eng.compressor_.decompress file.payload dataOut (eng.chunkSize chunk) =
      Except.ok decoded) :
    eng.readChunk chunk dataOut fs =
      { result := Except.ok ()
        fs := { fs with log := fs.log ++ [FsOp.readChunk chunk] }
        dataOut :=
          if eng.reversesEndianness then reverseFirst (eng.chunkSize chunk) decoded
          else decoded } := by
  unfold DatasetEngine.readChunk
  rw [checkChunk_of_valid hv]
  simp only [ioRead, hfile, Option.map_some', hdec]

/-- C20: for a valid chunk, under layout B with `sizeof(T) > 1` the memory
`writeChunk` hands to `compress` is the first `chunkSize` elements of the caller's
buffer, each with its bytes in reverse order, and `readChunk` returns the buffer
the codec decoded into with the bytes of each of its first `chunkSize` elements (the
elements the codec was asked to decode) reversed. Under layout A, or when
`sizeof(T)` is not above `1`, `compress` gets the caller's buffer itself and
`readChunk` returns the decoded buffer unchanged. In every case the caller's source
buffer is as it was after `writeChunk`. -/
theorem endianness_is_reversed_for_n5 (eng : DatasetEngine) (chunk : List Nat)
    (dataIn dataOut : List Element) (fs : FileSystem)
    (hv : ValidChunk eng.geometry chunk) :
    (eng.geometry.isZarr_ = false ∧ 1 < eng.sizeofT →
      (eng.writeChunk chunk dataIn fs).compressCalls =
        [((dataIn.take (eng.chunkSize chunk)).map List.reverse, eng.chunkSize chunk)]) ∧
    (eng.geometry.isZarr_ = true ∨ eng.sizeofT ≤ 1 →
      (eng.writeChunk chunk dataIn fs).compressCalls = [(dataIn, eng.chunkSize chunk)]) ∧
    (eng.writeChunk chunk dataIn fs).dataIn = dataIn ∧
    (∀ file decoded, fs.chunkFile chunk = some file →
      eng.compressor_.decompress file.payload dataOut (eng.chunkSize chunk) =
        Except.ok decoded →
      (eng.geometry.isZarr_ = false ∧ 1 < eng.sizeofT →
        (eng.readChunk chunk dataOut fs).dataOut =
          (decoded.take (eng.chunkSize chunk)).map List.reverse ++
            decoded.drop (eng.chunkSize chunk)) ∧
      (eng.geometry.isZarr_ = true ∨ eng.sizeofT ≤ 1 →
        (eng.readChunk chunk dataOut fs).dataOut = decoded)) := by
  obtain ⟨hc, hd⟩ := writeChunk_compressCalls eng chunk dataIn fs hv
  have hno : (eng.geometry.isZarr_ = true ∨ eng.sizeofT ≤ 1) → eng.reversesEndianness = false := by
    intro h
    cases hr : eng.reversesEndianness with
    | false => rfl
    | true =>
      have := (reversesEndianness_iff eng).mp hr
      rcases h with h | h
      · rw [h] at this; exact absurd this.1 (by simp)
      · omega
  refine ⟨?_, ?_, hd, ?_⟩
  · intro h
    rw [hc]
    unfold DatasetEngine.compressInput
    rw [(reversesEndianness_iff eng).mpr h]
    rfl
  · intro h
    rw [hc]
    unfold DatasetEngine.compressInput
    rw [hno h]
    rfl
  · intro file decoded hfile hdec
    rw [readChunk_present eng chunk dataOut fs hv file hfile decoded hdec]
    constructor
    · intro h
      show (if eng.reversesEndianness = true then _ else _) = _
      rw [(reversesEndianness_iff eng).mpr h]
      rfl
    · intro h
      show (if eng.reversesEndianness = true then _ else _) = _
      rw [hno h]
      rfl

theorem endianness_is_reversed_for_n5_witness :
    (DatasetEngine.writeChunk ⟨init ⟨false, [10], [4]⟩, 4, [0, 0, 0, 0], rawCompressor⟩ [2]
      [[1, 2, 3, 4], [5, 6, 7, 8]] ⟨true, none, [], []⟩).compressCalls =
      [(([[1, 2, 3, 4], [5, 6, 7, 8]].take
          (DatasetEngine.chunkSize
            ⟨init ⟨false, [10], [4]⟩, 4, [0, 0, 0, 0], rawCompressor⟩ [2])).map List.reverse,
        DatasetEngine.chunkSize ⟨init ⟨false, [10], [4]⟩, 4, [0, 0, 0, 0], rawCompressor⟩ [2])] :=
  (endianness_is_reversed_for_n5 ⟨init ⟨false, [10], [4]⟩, 4, [0, 0, 0, 0], rawCompressor⟩ [2]
    [[1, 2, 3, 4], [5, 6, 7, 8]] [] ⟨true, none, [], []⟩ (by decide)).1 ⟨rfl, by decide⟩

/-- C17 (counterexample): the dataset path does not exist and the creation of the
directory fails with an `IoError`; create-mode construction fails although the path
did not exist, no directory is there afterwards and `writeMetadata` is not
called. -/
theorem createDataset_fails_on_absent_path :
    (⟨false, none, [], []⟩ : FileSystem).datasetExists = false ∧
    (createDataset ⟨true, [10], [4]⟩ ⟨true, false⟩ ⟨false, none, [], []⟩).1.isOk = false ∧
    (createDataset ⟨true, [10], [4]⟩ ⟨true, false⟩ ⟨false, none, [], []⟩).2 =
      ⟨false, none, [], [FsOp.createDir]⟩ ∧
    (createDataset ⟨true, [10], [4]⟩ ⟨false, true⟩ ⟨false, none, [], []⟩).1.isOk = false :=
  ⟨rfl, rfl, by decide, rfl⟩

/-- C17 (amended): create-mode construction throws "file already exists" whenever
the dataset path already exists, and then the file system is left exactly as it
was: no directory is created and no metadata is written. When the path does not
exist it throws exactly when the creation of the directory or the writing of the
metadata fails; the directory is created before the metadata is written, and
without a failure the geometry is built, the directory exists and the metadata is
stored. Open-mode construction throws when the dataset path does not exist and
leaves the file system exactly as it was: no metadata is read. -/
theorem construction_checks_path_first (metadata : DatasetMetadata) (faults : IoFaults)
    (fs : FileSystem) :
    (fs.datasetExists = true →
      (createDataset metadata faults fs).1 =
        Except.error "Creating a new Dataset failed because file already exists." ∧
      (createDataset metadata faults fs).1.isOk = false ∧
      (createDataset metadata faults fs).2 = fs) ∧
    ((createDataset metadata faults fs).1.isOk = false ↔
      fs.datasetExists = true ∨ faults.createDir = true ∨ faults.writeMetadata = true) ∧
    (fs.datasetExists = false → faults.createDir = true →
      (createDataset metadata faults fs).2 =
        { fs with log := fs.log ++ [FsOp.createDir] }) ∧
    (fs.datasetExists = false → faults.createDir = false → faults.writeMetadata = true →
      (createDataset metadata faults fs).2 =
        { fs with datasetExists := true
                  log := fs.log ++ [FsOp.createDir, FsOp.writeMetadata] }) ∧
    (fs.datasetExists = false → faults.createDir = false → faults.writeMetadata = false →
      (createDataset metadata faults fs).1 = Except.ok (init metadata) ∧
      (createDataset metadata faults fs).2 =
        { fs with datasetExists := true
                  metadata := some metadata
                  log := fs.log ++ [FsOp.createDir, FsOp.writeMetadata] }) ∧
    (fs.datasetExists = false →
      (openDataset fs).1.isOk = false ∧ (openDataset fs).2 = fs) ∧
    (fs.datasetExists = true →
      (openDataset fs).2.log = fs.log ++ [FsOp.readMetadata]) := by
  unfold createDataset openDataset FileSystem.createDir FileSystem.writeMetadata
  cases h : fs.datasetExists <;> cases h1 : faults.createDir <;>
    cases h2 : faults.writeMetadata <;>
    simp [Except.isOk, Except.toBool, FileSystem.readMetadata]
  all_goals (cases fs.metadata <;> simp)

/-! ### The grid of `getChunkRequests` -/

/-- The number of entries of the grid. -/
theorem length_makeRegularGrid (los his : List Nat) (hlen : los.length = his.length) :
    (makeRegularGrid los his).length =
      (List.zipWith (fun lo hi => hi + 1 - lo) los his).prod := by
  induction los generalizing his with
  | nil => rw [makeRegularGrid_nil_left]; simp
  | cons lo los ih =>
    cases his with
    | nil => simp at hlen
    | cons hi his =>
      have hlen2 : los.length = his.length := by simpa using hlen
      rw [makeRegularGrid_cons, List.length_flatMap]
      have : (List.length ∘ fun i => (makeRegularGrid los his).map fun c => i :: c) =
          fun _ => (makeRegularGrid los his).length := by
        funext i; simp
      rw [this, List.map_const', List.sum_const_nat, ih his hlen2]
      simp [gridRange]

/-- The grid is listed in row-major order: it is strictly increasing in the
lexicographic order, dimension 0 being the most significant. -/
theorem makeRegularGrid_rowMajor (los his : List Nat) :
    (makeRegularGrid los his).Pairwise (List.Lex (fun a b : Nat => a < b)) := by
  induction los generalizing his with
  | nil => rw [makeRegularGrid_nil_left]; simp
  | cons lo los ih =>
    cases his with
    | nil => rw [makeRegularGrid_nil_right]; simp
    | cons hi his =>
      rw [makeRegularGrid_cons, List.pairwise_flatMap]
      constructor
      · intro i _
        rw [List.pairwise_map]
        exact (ih his).imp fun h => List.Lex.cons h
      · unfold gridRange
        rw [List.pairwise_map]
        apply (List.pairwise_lt_range _).imp
        intro a b hab x hx y hy
        rw [List.mem_map] at hx hy
        obtain ⟨x2, _, rfl⟩ := hx
        obtain ⟨y2, _, rfl⟩ := hy
        exact List.Lex.rel (by omega)

/-- Without wrap-around `maxChunkIds[d]` is the rounded-up quotient of the request
end by the chunk shape, less one. -/
theorem maxChunkId_eq_ceil (ds : DatasetTyped) (offset shape : List Nat) (d : Nat)
    (hcs : 0 < ds.chunkShape_.getD d 0) (hsh : 0 < shape.getD d 0)
    (hnw : offset.getD d 0 + shape.getD d 0 < SIZE_MOD) :
    ds.maxChunkId offset shape d =
      ⌈((offset.getD d 0 + shape.getD d 0 : ℕ) : ℚ) / (ds.chunkShape_.getD d 0 : ℚ)⌉₊ - 1 := by
  rw [maxChunkId_eq ds offset shape d hcs hsh hnw, ceil_div_eq _ _ hcs,
    pred_div_eq _ _ hcs (by omega)]
  split <;> simp

/-- For a request inside the array, `getChunkRequests` returns the grid of the ranges
`[minId[d], maxId[d]]` with `minId[d] = offset[d] / chunkShape[d]` and
`maxId[d] = ⌈(offset[d] + shape[d]) / chunkShape[d]⌉ - 1`, in row-major order, with
the product of `maxId[d] - minId[d] + 1` entries. -/
theorem getChunkRequests_grid (md : DatasetMetadata) (hv : ValidMetadata md)
    (offset shape : List Nat) (hin : InBounds (init md) offset shape) :
    (init md).getChunkRequests offset shape =
      makeRegularGrid ((List.range offset.length).map fun d => (init md).minChunkId offset d)
        ((List.range offset.length).map fun d => (init md).maxChunkId offset shape d) ∧
    (∀ d, d < offset.length →
      (init md).minChunkId offset d = offset.getD d 0 / md.chunkShape.getD d 0 ∧
      (init md).maxChunkId offset shape d =
        ⌈((offset.getD d 0 + shape.getD d 0 : ℕ) : ℚ) / (md.chunkShape.getD d 0 : ℚ)⌉₊ - 1 ∧
      (init md).minChunkId offset d ≤ (init md).maxChunkId offset shape d) ∧
    ((init md).getChunkRequests offset shape).length =
      ((List.range offset.length).map fun d =>
        (init md).maxChunkId offset shape d - (init md).minChunkId offset d + 1).prod ∧
    ((init md).getChunkRequests offset shape).Pairwise (List.Lex (fun a b : Nat => a < b)) := by
  have hlen : offset.length = md.shape.length := hin.1
  have hdim : ∀ d, d < offset.length →
      (init md).minChunkId offset d ≤ (init md).maxChunkId offset shape d := by
    intro d hd
    have hd2 : d < md.shape.length := hlen ▸ hd
    have hcs := (getD_pos_of_forall (hv.1 ▸ hd2) hv.2.2).1
    have hb := hin.2.2 d hd2
    have hnw := (hin.accepted hv).2 d hd2
    rw [maxChunkId_eq (init md) offset shape d hcs hb.1 hnw]
    exact Nat.div_le_div_right (by omega)
  refine ⟨rfl, fun d hd => ⟨rfl, ?_, hdim d hd⟩, ?_, makeRegularGrid_rowMajor _ _⟩
  · have hd2 : d < md.shape.length := hlen ▸ hd
    exact maxChunkId_eq_ceil (init md) offset shape d
      (getD_pos_of_forall (hv.1 ▸ hd2) hv.2.2).1 (hin.2.2 d hd2).1 ((hin.accepted hv).2 d hd2)
  · unfold DatasetTyped.getChunkRequests
    simp only
    rw [length_makeRegularGrid _ _ (by simp)]
    congr 1
    apply List.ext_getElem
    · simp
    · intro d h1 h2
      have hd : d < offset.length := by simpa using h2
      have := hdim d hd
      simp only [List.getElem_zipWith, List.getElem_map, List.getElem_range]
      omega

/-- C18 (failing input): on the dataset with `shape = (10,)`, `chunkShape = (10,)` the
request `offset = (2^64 - 5,)`, `shape = (10,)` is accepted by `checkRequestShape`
(the `size_t` sum wraps to `5`). The claim's bounds are
`minId = 1844674407370955161` and `maxId = ⌈(2^64 + 5) / 10⌉ - 1 =
1844674407370955162`, a range of two chunks; the code computes `maxChunkIds = (0,)`
from the wrapped sum, and the list it returns does not have two entries. For the
spec's scenario (`shape = (100,)`, `chunkShape = (10,)`, request `(7, 15)`) the
result is `[(0,), (1,), (2,)]`. -/
theorem getChunkRequests_bounds_of_wrapped_request :
    Accepted (init ⟨true, [10], [10]⟩) [18446744073709551611] [10] ∧
    (init ⟨true, [10], [10]⟩).minChunkId [18446744073709551611] 0 = 1844674407370955161 ∧
    ⌈((18446744073709551611 + 10 : ℕ) : ℚ) / ((10 : ℕ) : ℚ)⌉₊ - 1 = 1844674407370955162 ∧
    (init ⟨true, [10], [10]⟩).maxChunkId [18446744073709551611] [10] 0 = 0 ∧
    ((init ⟨true, [10], [10]⟩).getChunkRequests [18446744073709551611] [10]).length ≠
      1844674407370955162 - 1844674407370955161 + 1 ∧
    (init ⟨true, [100], [10]⟩).getChunkRequests [7] [15] = [[0], [1], [2]] := by
  refine ⟨by decide, by decide, ?_, by decide, by decide, by decide⟩
  rw [ceil_div_eq _ _ (by decide)]
  decide


/-! ### The returned chunks are valid -/

/-- The number of chunks in a dimension is one more than the index of the chunk
holding the last coordinate. -/
theorem chunksPerDimension_eq_succ (md : DatasetMetadata) (hv : ValidMetadata md) (d : Nat)
    (hd : d < md.shape.length) :
    (init md).chunksPerDimension_.getD d 0 =
      (md.shape.getD d 0 - 1) / md.chunkShape.getD d 0 + 1 := by
  have hs := (getD_pos_of_forall hd hv.2.1).1
  have hcs := (getD_pos_of_forall (hv.1 ▸ hd) hv.2.2).1
  have h1 : (init md).chunksPerDimension_.getD d 0 =
      (chunksPerDimensionOf md.shape md.chunkShape).getD d 0 := rfl
  rw [h1, chunksPerDimensionOf_spec md hv d hd, pred_div_eq _ _ hcs hs]
  by_cases h0 : md.shape.getD d 0 % md.chunkShape.getD d 0 = 0
  · rw [if_pos h0, if_pos h0]
    have hq : 1 ≤ md.shape.getD d 0 / md.chunkShape.getD d 0 := by
      rw [Nat.one_le_iff_ne_zero]
      intro hq
      have hdm := Nat.div_add_mod (md.shape.getD d 0) (md.chunkShape.getD d 0)
      rw [hq, h0] at hdm
      omega
    omega
  · rw [if_neg h0, if_neg h0]

/-- For a request inside the array the bounds of `getChunkRequests` satisfy
`minId[d] ≤ maxId[d] < chunksPerDimension[d]`, the subtraction `endId - 1` is only
made with `endId ≥ 1`, and every returned chunk identifier passes `checkChunk`. -/
theorem chunkRequests_are_valid (md : DatasetMetadata) (hv : ValidMetadata md)
    (offset shape : List Nat) (hin : InBounds (init md) offset shape) :
    (∀ d, d < md.shape.length →
      (init md).minChunkId offset d ≤ (init md).maxChunkId offset shape d ∧
      (init md).maxChunkId offset shape d < (init md).chunksPerDimensionAt d ∧
      ((offset.getD d 0 + shape.getD d 0) % md.chunkShape.getD d 0 = 0 →
        1 ≤ (offset.getD d 0 + shape.getD d 0) / md.chunkShape.getD d 0)) ∧
    ∀ ch, ch ∈ (init md).getChunkRequests offset shape → ValidChunk (init md) ch := by
  have hlen : offset.length = md.shape.length := hin.1
  have hdim : ∀ d, d < md.shape.length →
      (init md).minChunkId offset d ≤ (init md).maxChunkId offset shape d ∧
      (init md).maxChunkId offset shape d < (init md).chunksPerDimensionAt d := by
    intro d hd
    have hcs := (getD_pos_of_forall (hv.1 ▸ hd) hv.2.2).1
    have hb := hin.2.2 d hd
    have hnw := (hin.accepted hv).2 d hd
    have hsh2 : (init md).shape_.getD d 0 = md.shape.getD d 0 := rfl
    rw [hsh2] at hb
    rw [maxChunkId_eq (init md) offset shape d hcs hb.1 hnw]
    refine ⟨Nat.div_le_div_right (by omega), ?_⟩
    show _ < (init md).chunksPerDimension_.getD d 0
    rw [chunksPerDimension_eq_succ md hv d hd]
    have : (offset.getD d 0 + shape.getD d 0 - 1) / md.chunkShape.getD d 0 ≤
        (md.shape.getD d 0 - 1) / md.chunkShape.getD d 0 :=
      Nat.div_le_div_right (by omega)
    exact Nat.lt_succ_of_le this
  constructor
  · intro d hd
    refine ⟨(hdim d hd).1, (hdim d hd).2, fun h0 => ?_⟩
    have hb := hin.2.2 d hd
    rw [Nat.one_le_iff_ne_zero]
    intro hq
    have hdm := Nat.div_add_mod (offset.getD d 0 + shape.getD d 0) (md.chunkShape.getD d 0)
    rw [hq, h0] at hdm
    omega
  · intro ch hc
    rw [validChunk_iff]
    obtain ⟨h1, h2⟩ := (mem_getChunkRequests _ _ _ _).mp hc
    refine ⟨h1.trans hlen, fun d hd => ?_⟩
    have := (h2 d (hlen ▸ hd)).2
    exact lt_of_le_of_lt this (hdim d hd).2

/-- C21 (failing input): on the dataset with `shape = (10,)`, `chunkShape = (10,)`,
which has one chunk, the request `offset = (2^64 - 6,)`, `shape = (6,)` is accepted
by `checkRequestShape` (the `size_t` sum wraps to `0`). Then `endCoordinate = 0`,
`endId = 0` and `endCoordinate % chunkShape == 0`, so the code subtracts `1` from
`endId = 0`: `maxChunkIds = (2^64 - 1,)`, not below `chunksPerDimension = (1,)`.
The returned identifier `(1844674407370955161,)` fails `checkChunk`. -/
theorem chunkRequests_bounds_underflow :
    ValidMetadata ⟨true, [10], [10]⟩ ∧
    Accepted (init ⟨true, [10], [10]⟩) [18446744073709551610] [6] ∧
    szAdd 18446744073709551610 6 = 0 ∧
    (init ⟨true, [10], [10]⟩).chunksPerDimension = [1] ∧
    (init ⟨true, [10], [10]⟩).minChunkId [18446744073709551610] 0 = 1844674407370955161 ∧
    (init ⟨true, [10], [10]⟩).maxChunkId [18446744073709551610] [6] 0 =
      18446744073709551615 ∧
    [1844674407370955161] ∈
      (init ⟨true, [10], [10]⟩).getChunkRequests [18446744073709551610] [6] ∧
    ¬ValidChunk (init ⟨true, [10], [10]⟩) [1844674407370955161] := by
  refine ⟨by decide, by decide, by decide, by decide, by decide, by decide, ?_, by decide⟩
  rw [mem_getChunkRequests]
  refine ⟨rfl, fun d hd => ?_⟩
  have hd0 : d = 0 := by
    have : d < 1 := hd
    omega
  subst hd0
  decide


/-! ### The local regions stay inside the buffers -/

/-- The subtractions of one dimension in exact arithmetic, under the side conditions
of `coordinatesInDim_exact`: the first two are `chunkBegin - offset` and
`requestEnd - chunkEnd`, and in every later one the subtrahend is at most the
minuend. -/
theorem subtractionsInDim_exact (ds : DatasetTyped) (chunkId offset shape chunkShape : List Nat)
    (d : Nat)
    (hre : offset.getD d 0 + shape.getD d 0 < INT_HALF)
    (hcs : chunkShape.getD d 0 < INT_HALF)
    (h1 : chunkId.getD d 0 * ds.chunkShape_.getD d 0 < offset.getD d 0 + shape.getD d 0)
    (h2 : offset.getD d 0 <
      chunkId.getD d 0 * ds.chunkShape_.getD d 0 + chunkShape.getD d 0) :
    (ds.subtractionsInDim chunkId offset shape chunkShape d).take 2 =
      [(chunkId.getD d 0 * ds.chunkShape_.getD d 0, offset.getD d 0),
       (offset.getD d 0 + shape.getD d 0,
        chunkId.getD d 0 * ds.chunkShape_.getD d 0 + chunkShape.getD d 0)] ∧
    ∀ pair, pair ∈ (ds.subtractionsInDim chunkId offset shape chunkShape d).drop 2 →
      pair.2 ≤ pair.1 := by
  have hH : INT_HALF = 2147483648 := rfl
  have hS : SIZE_MOD = 18446744073709551616 := rfl
  have hcb : szMul (chunkId.getD d 0) (ds.chunkShape_.getD d 0) =
      chunkId.getD d 0 * ds.chunkShape_.getD d 0 := szMul_of_lt (by omega)
  unfold DatasetTyped.subtractionsInDim
  simp only [hcb]
  generalize chunkId.getD d 0 * ds.chunkShape_.getD d 0 = cb at *
  generalize chunkShape.getD d 0 = csd at *
  generalize offset.getD d 0 = off at *
  generalize shape.getD d 0 = sh at *
  have hce : szAdd cb csd = cb + csd := szAdd_of_lt (by omega)
  have hre2 : szAdd off sh = off + sh := szAdd_of_lt (by omega)
  rw [hce, hre2]
  have hoff : toInt (szSub cb off) = (cb : Int) - (off : Int) :=
    toInt_szSub _ _ (by omega) (by omega)
  have hend : toInt (szSub (off + sh) (cb + csd)) =
      ((off + sh : Nat) : Int) - ((cb + csd : Nat) : Int) :=
    toInt_szSub _ _ (by omega) (by omega)
  rw [hoff, hend]
  refine ⟨rfl, ?_⟩
  intro pair hp
  simp only [List.cons_append, List.nil_append, List.drop_succ_cons, List.drop_zero] at hp
  by_cases hc1 : (cb : Int) - (off : Int) < 0
  · rw [if_pos hc1] at hp
    rw [List.mem_singleton] at hp
    subst hp
    split <;> simp only <;> omega
  · rw [if_neg hc1] at hp
    by_cases hc2 : ((off + sh : Nat) : Int) - ((cb + csd : Nat) : Int) < 0
    · rw [if_pos hc2] at hp
      simp only [List.mem_cons, List.mem_singleton, List.not_mem_nil, or_false] at hp
      rcases hp with hp | hp <;> subst hp <;> simp only <;> omega
    · rw [if_neg hc2] at hp
      rw [List.mem_singleton] at hp
      subst hp
      simp only
      omega

/-- C22 (counterexample): in the spec's scenario (`shape = (100,)`,
`chunkShape = (10,)`, accepted request `offset = (7,)`, `shape = (15,)`) the returned
chunk `(0,)` begins at `0`, before the request, and the first subtraction of the
loop body is the `size_t` subtraction `chunkBegin - offset[d] = 0 - 7`, which
underflows: it wraps to `2^64 - 7` and the conversion to `int` gives `-7`. -/
theorem offDiff_subtraction_underflows :
    Accepted (init ⟨true, [100], [10]⟩) [7] [15] ∧
    [0] ∈ (init ⟨true, [100], [10]⟩).getChunkRequests [7] [15] ∧
    (0, 7) ∈ (init ⟨true, [100], [10]⟩).subtractionsInDim [0] [7] [15]
      ((init ⟨true, [100], [10]⟩).getChunkShape [0]) 0 ∧
    (0 : Nat) < 7 ∧
    szSub 0 7 = 18446744073709551609 ∧
    toInt (szSub 0 7) = -7 := by
  refine ⟨by decide, by decide, by decide, by decide, by decide, by decide⟩

/-- C22 (amended): for a request that lies inside an array whose shape and chunk
shape entries are `int` values, and every chunk returned by `getChunkRequests`, the
outputs of `getCoordinatesInRequest` stay inside both buffers in every dimension:
`localShape[d] ≥ 1`, `localOffset[d] + localShape[d] ≤ shape[d]` and
`inChunkOffset[d] + localShape[d] ≤ actualChunkShape(c)[d]`. The first two `size_t`
subtractions of the loop body are `chunkBegin - offset[d]` and
`requestEnd - chunkEnd` (they wrap below zero when the chunk begins before, or ends
after, the request, and are then read as negative `int`s); no later subtraction
underflows. -/
theorem local_regions_fit_buffers (md : DatasetMetadata) (hv : ValidMetadata md)
    (hfit : FitsInt md) (offset shape : List Nat) (hin : InBounds (init md) offset shape)
    (ch : List Nat) (hc : ch ∈ (init md).getChunkRequests offset shape)
    (d : Nat) (hd : d < md.shape.length) :
    1 ≤ ((init md).getCoordinatesInRequest ch offset shape).localShape.getD d 0 ∧
    ((init md).getCoordinatesInRequest ch offset shape).localOffset.getD d 0 +
      ((init md).getCoordinatesInRequest ch offset shape).localShape.getD d 0 ≤
        shape.getD d 0 ∧
    ((init md).getCoordinatesInRequest ch offset shape).inChunkOffset.getD d 0 +
      ((init md).getCoordinatesInRequest ch offset shape).localShape.getD d 0 ≤
        ((init md).getChunkShape ch).getD d 0 ∧
    ((init md).subtractionsInDim ch offset shape ((init md).getChunkShape ch) d).take 2 =
      [(ch.getD d 0 * md.chunkShape.getD d 0, offset.getD d 0),
       (offset.getD d 0 + shape.getD d 0,
        ch.getD d 0 * md.chunkShape.getD d 0 + ((init md).getChunkShape ch).getD d 0)] ∧
    ∀ pair,
      pair ∈ ((init md).subtractionsInDim ch offset shape
        ((init md).getChunkShape ch) d).drop 2 →
      pair.2 ≤ pair.1 := by
  obtain ⟨g1, g2, g3, g4⟩ := chunk_geometry md hv hfit offset shape hin ch hc d hd
  obtain ⟨e1, e2, e3⟩ := getCoordinatesInRequest_exact md hv hfit offset shape hin ch hc d hd
  obtain ⟨s1, s2⟩ :=
    subtractionsInDim_exact (init md) ch offset shape ((init md).getChunkShape ch) d g1 g2 g3 g4
  have hb := hin.2.2 d hd
  have hcs := (getD_pos_of_forall (hv.1 ▸ hd) hv.2.2).1
  have hsh2 : (init md).shape_.getD d 0 = md.shape.getD d 0 := rfl
  have hcs2 : (init md).chunkShape_.getD d 0 = md.chunkShape.getD d 0 := rfl
  rw [hsh2] at hb
  rw [hcs2] at g3 g4
  have hpos : 0 < ((init md).getChunkShape ch).getD d 0 := by
    rw [getD_getChunkShape md ch d hd]
    split
    · exact hcs
    · exact lt_min hcs (by omega)
  refine ⟨?_, ?_, ?_, s1, s2⟩
  · rw [e3]; omega
  · rw [e3]; omega
  · rw [e2, e3]; omega

theorem local_regions_fit_buffers_witness :
    1 ≤ ((init ⟨false, [20, 20, 20], [13, 5, 9]⟩).getCoordinatesInRequest [1, 0, 2] [3, 4, 5]
      [15, 1, 14]).localShape.getD 2 0 :=
  (local_regions_fit_buffers ⟨false, [20, 20, 20], [13, 5, 9]⟩ (by decide) (by decide)
    [3, 4, 5] [15, 1, 14] (by decide) [1, 0, 2] (by decide) 2 (by decide)).1


/-! ### The local regions tile the request -/

/-- For a returned chunk of a request inside an array whose shape entries are `int`
values, the local region contains a coordinate of the request exactly when the chunk
is the one holding the coordinate. -/
theorem inLocalRegion_iff (md : DatasetMetadata) (hv : ValidMetadata md) (hfit : FitsInt md)
    (offset shape : List Nat) (hin : InBounds (init md) offset shape)
    (p : List Nat) (hp : InRequest offset shape p)
    (ch : List Nat) (hc : ch ∈ (init md).getChunkRequests offset shape) :
    InLocalRegion (init md) offset shape ch p ↔
      ∀ d, d < offset.length → ch.getD d 0 = p.getD d 0 / md.chunkShape.getD d 0 := by
  have hlen : offset.length = md.shape.length := hin.1
  unfold InLocalRegion
  apply forall_congr'
  intro d
  apply imp_congr_right
  intro hd
  have hd2 : d < md.shape.length := hlen ▸ hd
  obtain ⟨g1, g2, g3, g4⟩ := chunk_geometry md hv hfit offset shape hin ch hc d hd2
  obtain ⟨e1, e2, e3⟩ := getCoordinatesInRequest_exact md hv hfit offset shape hin ch hc d hd2
  have hb := hin.2.2 d hd2
  have hcs := (getD_pos_of_forall (hv.1 ▸ hd2) hv.2.2).1
  have hsh2 : (init md).shape_.getD d 0 = md.shape.getD d 0 := rfl
  have hcs2 : (init md).chunkShape_.getD d 0 = md.chunkShape.getD d 0 := rfl
  rw [hsh2] at hb
  rw [hcs2] at g3 g4
  have hpd := hp.2 d hd
  have hshape := getD_getChunkShape md ch d hd2
  -- the chunk holding `p[d]`
  have hdiv : ch.getD d 0 = p.getD d 0 / md.chunkShape.getD d 0 ↔
      ch.getD d 0 * md.chunkShape.getD d 0 ≤ p.getD d 0 ∧
      p.getD d 0 < ch.getD d 0 * md.chunkShape.getD d 0 + md.chunkShape.getD d 0 := by
    constructor
    · intro h
      rw [h]
      have h1 := Nat.div_mul_le_self (p.getD d 0) (md.chunkShape.getD d 0)
      have h2 := Nat.div_add_mod (p.getD d 0) (md.chunkShape.getD d 0)
      have h3 := Nat.mod_lt (p.getD d 0) hcs
      have h4 : md.chunkShape.getD d 0 * (p.getD d 0 / md.chunkShape.getD d 0) =
          p.getD d 0 / md.chunkShape.getD d 0 * md.chunkShape.getD d 0 := Nat.mul_comm _ _
      omega
    · rintro ⟨h1, h2⟩
      symm
      apply Nat.div_eq_of_lt_le h1
      rw [Nat.succ_mul]
      exact h2
  rw [hdiv, e3]
  generalize ((init md).getCoordinatesInRequest ch offset shape).localOffset.getD d 0 = lo at *
  generalize ch.getD d 0 * md.chunkShape.getD d 0 = cb at *
  generalize ((init md).getChunkShape ch).getD d 0 = act at *
  by_cases hz : md.isZarr = true
  · rw [if_pos hz] at hshape
    omega
  · rw [if_neg hz] at hshape
    omega

/-- The chunk holding a coordinate of the request is among the returned chunks. -/
theorem holding_chunk_mem (md : DatasetMetadata) (hv : ValidMetadata md)
    (offset shape : List Nat) (hin : InBounds (init md) offset shape)
    (p : List Nat) (hp : InRequest offset shape p) :
    ((List.range offset.length).map fun d => p.getD d 0 / md.chunkShape.getD d 0) ∈
      (init md).getChunkRequests offset shape := by
  have hlen : offset.length = md.shape.length := hin.1
  rw [(getChunkRequests_exact md hv offset shape hin).1]
  refine ⟨by simp, fun d hd => ?_⟩
  have hd2 : d < md.shape.length := hlen ▸ hd
  have hcs := (getD_pos_of_forall (hv.1 ▸ hd2) hv.2.2).1
  have hpd := hp.2 d hd
  rw [getD_map_range _ _ _ hd]
  have hcs2 : (init md).chunkShape_.getD d 0 = md.chunkShape.getD d 0 := rfl
  rw [hcs2]
  have h1 := Nat.div_mul_le_self (p.getD d 0) (md.chunkShape.getD d 0)
  have h2 : p.getD d 0 < (p.getD d 0 / md.chunkShape.getD d 0 + 1) * md.chunkShape.getD d 0 :=
    (Nat.div_lt_iff_lt_mul hcs).mp (Nat.lt_succ_iff.mpr (le_refl _))
  constructor
  · omega
  · omega

/-- For a request that lies inside an array whose shape and chunk shape entries are
`int` values and every coordinate `p` of the request, exactly one returned chunk has
a local region containing `p - offset`: the chunk with `c[d] = p[d] / chunkShape[d]`. -/
theorem local_regions_tile_request (md : DatasetMetadata) (hv : ValidMetadata md)
    (hfit : FitsInt md) (offset shape : List Nat) (hin : InBounds (init md) offset shape)
    (p : List Nat) (hp : InRequest offset shape p) :
    ∃! ch, ch ∈ (init md).getChunkRequests offset shape ∧
      InLocalRegion (init md) offset shape ch p := by
  refine ⟨(List.range offset.length).map fun d => p.getD d 0 / md.chunkShape.getD d 0,
    ⟨holding_chunk_mem md hv offset shape hin p hp, ?_⟩, ?_⟩
  · rw [inLocalRegion_iff md hv hfit offset shape hin p hp _
      (holding_chunk_mem md hv offset shape hin p hp)]
    intro d hd
    exact getD_map_range _ _ _ hd
  · rintro ch ⟨hc, hr⟩
    rw [inLocalRegion_iff md hv hfit offset shape hin p hp ch hc] at hr
    have hclen : ch.length = offset.length := ((mem_getChunkRequests _ _ _ _).mp hc).1
    apply List.ext_getElem
    · simp [hclen]
    · intro d h1 h2
      have hd : d < offset.length := hclen ▸ h1
      have := hr d hd
      rw [List.getD_eq_getElem?_getD, List.getElem?_eq_getElem h1, Option.getD_some] at this
      rw [this, List.getElem_map, List.getElem_range]

/-- C23 (failing input): on the dataset with `shape = (4294967296,)`,
`chunkShape = (1073741824,)` and the accepted request `offset = (1,)`,
`shape = (4294967295,)`, the coordinate `p = (2147483648,)` lies in the request and
in chunk `p / chunkShape = (2,)`. The local regions that `getCoordinatesInRequest`
computes for the returned chunks `(1,)`, `(2,)` and `(3,)` all contain `p - offset`,
so the regions of distinct chunks overlap: `endDiff` of chunk `(1,)` and `offDiff`
of chunk `(3,)` do not fit the `int` they are stored in. -/
theorem local_regions_overlap :
    Accepted (init ⟨true, [4294967296], [1073741824]⟩) [1] [4294967295] ∧
    InRequest [1] [4294967295] [2147483648] ∧
    2147483648 / 1073741824 = 2 ∧
    (init ⟨true, [4294967296], [1073741824]⟩).getChunkRequests [1] [4294967295] =
      [[0], [1], [2], [3]] ∧
    InLocalRegion (init ⟨true, [4294967296], [1073741824]⟩) [1] [4294967295] [1]
      [2147483648] ∧
    InLocalRegion (init ⟨true, [4294967296], [1073741824]⟩) [1] [4294967295] [2]
      [2147483648] ∧
    InLocalRegion (init ⟨true, [4294967296], [1073741824]⟩) [1] [4294967295] [3]
      [2147483648] := by
  refine ⟨by decide, by decide, by decide, by decide, by decide, by decide, by decide⟩

end Z5
